import Mathlib

/-!
# Break point bookkeeping of `src/objects/debug-objects.cc`

A shallow embedding of `DebugInfo` and `BreakPointInfo` and of their
operations, followed by theorems about them.

Modelling conventions.

* A `FixedArray` is a list of slots; a slot that holds `undefined` is `none`.
  `NewFixedArray n` yields `n` slots holding `undefined` and fails for a
  negative length; `FixedArray.set` fails for an index outside the array.
  Every function that allocates or writes an array therefore returns an
  `Option`, where `none` stands for such a fault.
* A break point object (marker) is a heap object that is neither `undefined`
  nor a `FixedArray`; its type `M` is arbitrary with decidable equality, which
  stands for pointer identity.
* The field `break_point_objects` holds `undefined`, one marker, or a
  `FixedArray` whose slots hold markers or `undefined`.
* `DebugInfo::break_points` is a `FixedArray` whose slots hold `undefined` or a
  `BreakPointInfo`.  The objects are embedded by value: a handle to the
  `BreakPointInfo` held in slot `i` is the pair of `i` and the object, and a
  mutation through the handle replaces the contents of slot `i`.
  The guards `break_points()->IsUndefined(isolate)` concern a state this field
  never has here: it always holds a `FixedArray`, and `DebugInfo::SetBreakPoint`
  reads its length without that guard.
* A `for` loop over an array is a recursive function whose list argument is the
  part of the array from the current index on; the index is an argument where
  the loop body uses it.
* `int` indices are unbounded integers, counts and lengths are natural numbers;
  array lengths stay far below `2^31`.
* `DCHECK`s are not evaluated (release build).
-/

namespace V8

/-- A `FixedArray`: one entry per slot, `none` for a slot holding `undefined`. -/
abbrev FixedArray (α : Type) := List (Option α)

/-- Model of `Factory::NewFixedArray(length)`: all slots hold `undefined`. -/
def NewFixedArray {α : Type} (length : Int) : Option (FixedArray α) :=
  if 0 ≤ length then some (List.replicate length.toNat none) else none

/-- Model of `FixedArray::set(index, value)`, with the bounds checked. -/
def FixedArray.set {α : Type} (array : FixedArray α) (index : Int) (value : Option α) :
    Option (FixedArray α) :=
  if 0 ≤ index ∧ index < (array.length : Int) then some (List.set array index.toNat value)
  else none

/-- The value of the field `break_point_objects`. -/
inductive BreakPointObjects (M : Type) where
  | undefined : BreakPointObjects M
  | single (break_point_object : M) : BreakPointObjects M
  | array (elements : FixedArray M) : BreakPointObjects M
  deriving DecidableEq, Repr

/-- The object `BreakPointInfo`. -/
structure BreakPointInfo (M : Type) where
  source_position : Int
  break_point_objects : BreakPointObjects M
  deriving DecidableEq, Repr

/-- The object `DebugInfo`, reduced to its field `break_points`. -/
structure DebugInfo (M : Type) where
  break_points : FixedArray (BreakPointInfo M)
  deriving DecidableEq, Repr

/-- Modelled from the spec: the constant `DebugInfo::kEstimatedNofBreakPointsInFunction`
is declared in the header, which is not part of the sources; the spec gives the
growth increment as 4. -/
def kEstimatedNofBreakPointsInFunction : Int := 4

/-- Modelled from the spec: `Factory::NewBreakPointInfo(source_position)` is not part of
the sources; the new entry carries the given position and no break point object. -/
def NewBreakPointInfo {M : Type} (source_position : Int) : BreakPointInfo M :=
  { source_position := source_position, break_point_objects := BreakPointObjects.undefined }

/-- The local constant `kNoBreakPointInfo` of `DebugInfo::SetBreakPoint`. -/
def kNoBreakPointInfo : Int := -1

section Operations

variable {M : Type} [DecidableEq M]

/-! ### BreakPointInfo -/

/-- `BreakPointInfo::GetBreakPointCount`. -/
def BreakPointInfo.GetBreakPointCount (info : BreakPointInfo M) : Nat :=
  match info.break_point_objects with
  | .undefined => 0
  | .single _ => 1
  | .array array => array.length

/-- The loop of `BreakPointInfo::HasBreakPointObject` over the slots `array[i..]`. -/
def BreakPointInfo.HasBreakPointObject.loop (break_point_object : M) :
    List (Option M) → Bool
  | [] => false
  | x :: rest => if x = some break_point_object then true else loop break_point_object rest

/-- `BreakPointInfo::HasBreakPointObject`. -/
def BreakPointInfo.HasBreakPointObject (info : BreakPointInfo M) (break_point_object : M) :
    Bool :=
  match info.break_point_objects with
  | .undefined => false
  | .single x => decide (x = break_point_object)
  | .array array => HasBreakPointObject.loop break_point_object array

/-- The loop of `BreakPointInfo::ClearBreakPoint`: the first argument is `old_array[i..]`,
the result is `new_array` and `found_count` after the last iteration. -/
def BreakPointInfo.ClearBreakPoint.loop (break_point_object : M) :
    List (Option M) → Int → Int → FixedArray M → Option (FixedArray M × Int)
  | [], _, found_count, new_array => some (new_array, found_count)
  | x :: rest, i, found_count, new_array =>
    if x = some break_point_object then
      loop break_point_object rest (i + 1) (found_count + 1) new_array
    else
      match FixedArray.set new_array (i - found_count) x with
      | none => none
      | some new_array1 => loop break_point_object rest (i + 1) found_count new_array1

/-- `BreakPointInfo::ClearBreakPoint`. -/
def BreakPointInfo.ClearBreakPoint (info : BreakPointInfo M) (break_point_object : M) :
    Option (BreakPointInfo M) :=
  match info.break_point_objects with
  | .undefined => some info
  | .single x =>
    if x = break_point_object then
      some { info with break_point_objects := BreakPointObjects.undefined }
    else some info
  | .array old_array =>
    match NewFixedArray ((old_array.length : Int) - 1) with
    | none => none
    | some new_array =>
      match ClearBreakPoint.loop break_point_object old_array 0 0 new_array with
      | none => none
      | some (new_array1, found_count) =>
        if found_count > 0 then
          some { info with break_point_objects := BreakPointObjects.array new_array1 }
        else some info

/-- How the copying loop of `BreakPointInfo::SetBreakPoint` ends: with the early `return`
at a slot equal to the break point object, or after the last slot with the filled array. -/
inductive SetLoopResult (M : Type) where
  | returned : SetLoopResult M
  | copied (new_array : FixedArray M) : SetLoopResult M

/-- The loop of `BreakPointInfo::SetBreakPoint`: the first argument is `old_array[i..]`. -/
def BreakPointInfo.SetBreakPoint.loop (break_point_object : M) :
    List (Option M) → Int → FixedArray M → Option (SetLoopResult M)
  | [], _, new_array => some (SetLoopResult.copied new_array)
  | x :: rest, i, new_array =>
    if x = some break_point_object then some SetLoopResult.returned
    else
      match FixedArray.set new_array i x with
      | none => none
      | some new_array1 => loop break_point_object rest (i + 1) new_array1

/-- `BreakPointInfo::SetBreakPoint`. -/
def BreakPointInfo.SetBreakPoint (info : BreakPointInfo M) (break_point_object : M) :
    Option (BreakPointInfo M) :=
  match info.break_point_objects with
  | .undefined =>
    some { info with break_point_objects := BreakPointObjects.single break_point_object }
  | .single x =>
    if x = break_point_object then some info
    else
      match NewFixedArray 2 with
      | none => none
      | some array0 =>
        match FixedArray.set array0 0 (some x) with
        | none => none
        | some array1 =>
          match FixedArray.set array1 1 (some break_point_object) with
          | none => none
          | some array2 =>
            some { info with break_point_objects := BreakPointObjects.array array2 }
  | .array old_array =>
    match NewFixedArray ((old_array.length : Int) + 1) with
    | none => none
    | some new_array =>
      match SetBreakPoint.loop break_point_object old_array 0 new_array with
      | none => none
      | some SetLoopResult.returned => some info
      | some (SetLoopResult.copied new_array1) =>
        match FixedArray.set new_array1 (old_array.length : Int) (some break_point_object) with
        | none => none
        | some new_array2 =>
          some { info with break_point_objects := BreakPointObjects.array new_array2 }

/-! ### DebugInfo -/

/-- The loop of `DebugInfo::GetBreakPointInfo` over the slots `break_points[i..]`: the
first `BreakPointInfo` with the given source position, together with its slot. -/
def DebugInfo.GetBreakPointInfo.loop (source_position : Int) :
    List (Option (BreakPointInfo M)) → Nat → Option (Nat × BreakPointInfo M)
  | [], _ => none
  | none :: rest, i => loop source_position rest (i + 1)
  | some break_point_info :: rest, i =>
    if break_point_info.source_position = source_position then some (i, break_point_info)
    else loop source_position rest (i + 1)

/-- `DebugInfo::GetBreakPointInfo`; `none` is the result `undefined`. -/
def DebugInfo.GetBreakPointInfo (debug_info : DebugInfo M) (source_position : Int) :
    Option (BreakPointInfo M) :=
  (GetBreakPointInfo.loop source_position debug_info.break_points 0).map Prod.snd

/-- `DebugInfo::HasBreakPoint`. -/
def DebugInfo.HasBreakPoint (debug_info : DebugInfo M) (source_position : Int) : Bool :=
  match debug_info.GetBreakPointInfo source_position with
  | none => false
  | some break_point_info => decide (break_point_info.GetBreakPointCount > 0)

/-- `DebugInfo::GetBreakPointObjects`; `none` is the result `undefined` for a position
without `BreakPointInfo`. -/
def DebugInfo.GetBreakPointObjects (debug_info : DebugInfo M) (source_position : Int) :
    Option (BreakPointObjects M) :=
  match debug_info.GetBreakPointInfo source_position with
  | none => none
  | some break_point_info => some break_point_info.break_point_objects

/-- The loop of `DebugInfo::GetBreakPointCount` over the slots `break_points[i..]`. -/
def DebugInfo.GetBreakPointCount.loop :
    List (Option (BreakPointInfo M)) → Nat → Nat
  | [], count => count
  | none :: rest, count => loop rest count
  | some break_point_info :: rest, count =>
    loop rest (count + break_point_info.GetBreakPointCount)

/-- `DebugInfo::GetBreakPointCount`. -/
def DebugInfo.GetBreakPointCount (debug_info : DebugInfo M) : Nat :=
  GetBreakPointCount.loop debug_info.break_points 0

/-- The loop shared by `DebugInfo::FindBreakPointInfo` and `DebugInfo::ClearBreakPoint`
over the slots `break_points[i..]`: the first `BreakPointInfo` that has the break point
object, together with its slot. -/
def DebugInfo.FindBreakPointInfo.loop (break_point_object : M) :
    List (Option (BreakPointInfo M)) → Nat → Option (Nat × BreakPointInfo M)
  | [], _ => none
  | none :: rest, i => loop break_point_object rest (i + 1)
  | some break_point_info :: rest, i =>
    if break_point_info.HasBreakPointObject break_point_object then some (i, break_point_info)
    else loop break_point_object rest (i + 1)

/-- `DebugInfo::FindBreakPointInfo`; `none` is the result `undefined`. -/
def DebugInfo.FindBreakPointInfo (debug_info : DebugInfo M) (break_point_object : M) :
    Option (BreakPointInfo M) :=
  (FindBreakPointInfo.loop break_point_object debug_info.break_points 0).map Prod.snd

/-- `DebugInfo::ClearBreakPoint`: the table afterwards and the returned flag. -/
def DebugInfo.ClearBreakPoint (debug_info : DebugInfo M) (break_point_object : M) :
    Option (DebugInfo M × Bool) :=
  match FindBreakPointInfo.loop break_point_object debug_info.break_points 0 with
  | none => some (debug_info, false)
  | some (i, break_point_info) =>
    match break_point_info.ClearBreakPoint break_point_object with
    | none => none
    | some break_point_info1 =>
      some ({ break_points := List.set debug_info.break_points i (some break_point_info1) },
        true)

/-- The first loop of `DebugInfo::SetBreakPoint` over the slots `break_points[i..]`: the
index of the first free slot, or `kNoBreakPointInfo`. -/
def DebugInfo.SetBreakPoint.freeLoop :
    List (Option (BreakPointInfo M)) → Int → Int
  | [], _ => kNoBreakPointInfo
  | none :: _, i => i
  | some _ :: rest, i => freeLoop rest (i + 1)

/-- The second loop of `DebugInfo::SetBreakPoint`, which copies `old_break_points[i..]`
into `new_break_points`. -/
def DebugInfo.SetBreakPoint.copyLoop :
    List (Option (BreakPointInfo M)) → Int → FixedArray (BreakPointInfo M) →
      Option (FixedArray (BreakPointInfo M))
  | [], _, new_break_points => some new_break_points
  | x :: rest, i, new_break_points =>
    match FixedArray.set new_break_points i x with
    | none => none
    | some new_break_points1 => copyLoop rest (i + 1) new_break_points1

/-- The part of `DebugInfo::SetBreakPoint` that extends the array when no free slot was
found: the array to write to and the index of the slot for the new entry. -/
def DebugInfo.SetBreakPoint.extend (break_points : FixedArray (BreakPointInfo M))
    (index : Int) : Option (FixedArray (BreakPointInfo M) × Int) :=
  if index = kNoBreakPointInfo then
    match NewFixedArray ((break_points.length : Int) + kEstimatedNofBreakPointsInFunction) with
    | none => none
    | some new_break_points =>
      match SetBreakPoint.copyLoop break_points 0 new_break_points with
      | none => none
      | some new_break_points1 => some (new_break_points1, (break_points.length : Int))
  else some (break_points, index)

/-- `DebugInfo::SetBreakPoint`. -/
def DebugInfo.SetBreakPoint (debug_info : DebugInfo M) (source_position : Int)
    (break_point_object : M) : Option (DebugInfo M) :=
  match GetBreakPointInfo.loop source_position debug_info.break_points 0 with
  | some (i, break_point_info) =>
    match break_point_info.SetBreakPoint break_point_object with
    | none => none
    | some break_point_info1 =>
      some { break_points := List.set debug_info.break_points i (some break_point_info1) }
  | none =>
    match SetBreakPoint.extend debug_info.break_points
        (SetBreakPoint.freeLoop debug_info.break_points 0) with
    | none => none
    | some (break_points, index) =>
      match (NewBreakPointInfo source_position).SetBreakPoint break_point_object with
      | none => none
      | some new_break_point_info =>
        match FixedArray.set break_points index (some new_break_point_info) with
        | none => none
        | some break_points1 => some { break_points := break_points1 }

/-! ### The copying loop of `BreakPointInfo::ClearBreakPoint`, step by step -/

/-- What one iteration of the loop of `BreakPointInfo::ClearBreakPoint` does: the write
`new_array->set(index, ...)`, or the evaluation of `DCHECK(found_count == 0)`. -/
inductive CopyEvent where
  | write (index : Int) : CopyEvent
  | dcheck (holds : Bool) : CopyEvent
  deriving DecidableEq, Repr

/-- The iterations of the loop of `BreakPointInfo::ClearBreakPoint` in order, with the
index of each write and the value of each `DCHECK`; the first argument is
`old_array[i..]`. -/
def BreakPointInfo.ClearBreakPoint.events (break_point_object : M) :
    List (Option M) → Int → Int → List CopyEvent
  | [], _, _ => []
  | x :: rest, i, found_count =>
    if x = some break_point_object then
      CopyEvent.dcheck (decide (found_count = 0)) ::
        events break_point_object rest (i + 1) (found_count + 1)
    else
      CopyEvent.write (i - found_count) :: events break_point_object rest (i + 1) found_count

/-- The indices written, in order. -/
def CopyEvent.writes : List CopyEvent → List Int
  | [] => []
  | CopyEvent.write index :: rest => index :: writes rest
  | CopyEvent.dcheck _ :: rest => writes rest

/-- The values of the `DCHECK`s, in order. -/
def CopyEvent.dchecks : List CopyEvent → List Bool
  | [] => []
  | CopyEvent.write _ :: rest => dchecks rest
  | CopyEvent.dcheck holds :: rest => holds :: dchecks rest

/-! ### Predicates used in the statements -/

/-- The break point objects an entry holds, in slot order. -/
def BreakPointInfo.markers (info : BreakPointInfo M) : List M :=
  match info.break_point_objects with
  | .undefined => []
  | .single x => [x]
  | .array array => array.reduceOption

/-- No slot of the entry's array holds `undefined`. -/
def BreakPointInfo.NoHoles (info : BreakPointInfo M) : Prop :=
  match info.break_point_objects with
  | .array array => none ∉ array
  | _ => True

/-- Entries obtained from a new `BreakPointInfo` by `BreakPointInfo::SetBreakPoint` calls
and by `BreakPointInfo::ClearBreakPoint` calls for break point objects the entry has. -/
inductive BreakPointInfo.Built : BreakPointInfo M → Prop
  | fresh (source_position : Int) : Built (NewBreakPointInfo source_position)
  | set {info info1 : BreakPointInfo M} (m : M) :
      Built info → info.SetBreakPoint m = some info1 → Built info1
  | clear {info info1 : BreakPointInfo M} (m : M) :
      Built info → info.HasBreakPointObject m = true →
      info.ClearBreakPoint m = some info1 → Built info1

/-- Tables obtained from a table of empty slots by `DebugInfo::SetBreakPoint` and
`DebugInfo::ClearBreakPoint` calls. -/
inductive DebugInfo.Reachable : DebugInfo M → Prop
  | empty (n : Nat) : Reachable { break_points := List.replicate n none }
  | set {d d1 : DebugInfo M} (source_position : Int) (m : M) :
      Reachable d → d.SetBreakPoint source_position m = some d1 → Reachable d1
  | clear {d d1 : DebugInfo M} (m : M) (result : Bool) :
      Reachable d → d.ClearBreakPoint m = some (d1, result) → Reachable d1

/-- No two occupied slots hold entries with the same source position. -/
def DebugInfo.UniquePositions (break_points : FixedArray (BreakPointInfo M)) : Prop :=
  ∀ (i j : Nat) (a b : BreakPointInfo M),
    break_points[i]? = some (some a) → break_points[j]? = some (some b) →
    a.source_position = b.source_position → i = j

/-- The pairs of a source position and a break point object held by the occupied slots,
in slot order. -/
def DebugInfo.pairs : List (Option (BreakPointInfo M)) → List (Int × M)
  | [] => []
  | none :: rest => pairs rest
  | some info :: rest =>
    info.markers.map (fun m => (info.source_position, m)) ++ pairs rest

/-- No empty slot precedes an occupied slot. -/
def DebugInfo.OccupiedPrefix (break_points : FixedArray (BreakPointInfo M)) : Prop :=
  ∀ (i j : Nat) (a : BreakPointInfo M), i < j → break_points[j]? = some (some a) →
    ∃ b, break_points[i]? = some (some b)

end Operations

/-! ## Arrays and loops -/

section ArrayLemmas

theorem NewFixedArray_ofNat (α : Type) (n : Nat) :
    (NewFixedArray (n : Int) : Option (FixedArray α)) = some (List.replicate n none) := by
  simp [NewFixedArray]

theorem NewFixedArray_neg {α : Type} (n : Int) (h : n < 0) :
    (NewFixedArray n : Option (FixedArray α)) = none := by
  simp [NewFixedArray]; omega

theorem set_length_append {α : Type} (pre : List α) (y x : α) (tl : List α) :
    List.set (pre ++ y :: tl) pre.length x = pre ++ x :: tl := by
  induction pre with
  | nil => rfl
  | cons a pre ih => simp [ih]

theorem FixedArray.set_at_length {α : Type} (pre : FixedArray α) (y x : Option α) (tl : FixedArray α) :
    FixedArray.set (pre ++ y :: tl) (pre.length : Int) x = some (pre ++ x :: tl) := by
  have h : (0 : Int) ≤ (pre.length : Int) ∧
      (pre.length : Int) < ((pre ++ y :: tl).length : Int) := by
    constructor
    · omega
    · simp
  simp only [FixedArray.set, h, and_self, if_true, Int.toNat_ofNat]
  rw [set_length_append]

theorem FixedArray.set_past_end {α : Type} (pre : FixedArray α) (x : Option α) (i : Int)
    (h : (pre.length : Int) ≤ i) : FixedArray.set pre i x = none := by
  simp [FixedArray.set]; omega


theorem SetBreakPoint_loop_eq {M : Type} [DecidableEq M] (m : M) (rest : List (Option M)) :
    ∀ (pre : FixedArray M) (k : Nat),
      BreakPointInfo.SetBreakPoint.loop m rest (pre.length : Int)
          (pre ++ List.replicate (rest.length + k) none) =
        if some m ∈ rest then some SetLoopResult.returned
        else some (SetLoopResult.copied (pre ++ rest ++ List.replicate k none)) := by
  induction rest with
  | nil => intro pre k; simp [BreakPointInfo.SetBreakPoint.loop]
  | cons x rest ih =>
    intro pre k
    by_cases hx : x = some m
    · simp [BreakPointInfo.SetBreakPoint.loop, hx]
    · have hne : ¬ some m = x := fun h => hx h.symm
      have hrep : List.replicate (rest.length + 1 + k) (none : Option M) =
          none :: List.replicate (rest.length + k) none := by
        rw [show rest.length + 1 + k = (rest.length + k) + 1 by omega, List.replicate_succ]
      have hstep := ih (pre ++ [x]) k
      simp only [List.length_append, List.length_singleton, Nat.cast_add, Nat.cast_one,
        List.append_assoc, List.singleton_append] at hstep
      simp only [BreakPointInfo.SetBreakPoint.loop, hx, if_false, List.length_cons, hrep,
        FixedArray.set_at_length, hstep, List.mem_cons, hne, false_or]
      simp

theorem ClearBreakPoint_loop_eq {M : Type} [DecidableEq M] (m : M) (rest : List (Option M)) :
    ∀ (pre : FixedArray M) (n : Nat) (i found_count : Int),
      i - found_count = (pre.length : Int) →
      BreakPointInfo.ClearBreakPoint.loop m rest i found_count
          (pre ++ List.replicate n none) =
        if (rest.filter (fun y => !decide (y = some m))).length ≤ n then
          some (pre ++ rest.filter (fun y => !decide (y = some m)) ++
              List.replicate (n - (rest.filter (fun y => !decide (y = some m))).length) none,
            found_count + ((rest.filter (fun y => decide (y = some m))).length : Int))
        else none := by
  induction rest with
  | nil => intro pre n i fc _; simp [BreakPointInfo.ClearBreakPoint.loop]
  | cons x rest ih =>
    intro pre n i fc hi
    by_cases hx : x = some m
    · have hstep := ih pre n (i + 1) (fc + 1) (by omega)
      simp only [BreakPointInfo.ClearBreakPoint.loop, hx, if_true, hstep]
      simp [add_assoc, add_comm]
    · simp only [BreakPointInfo.ClearBreakPoint.loop, hx, if_false, hi]
      cases n with
      | zero =>
        rw [FixedArray.set_past_end _ _ _ (by simp)]
        simp [hx]
      | succ n =>
        rw [List.replicate_succ, FixedArray.set_at_length]
        have hstep := ih (pre ++ [x]) n (i + 1) fc (by simp; omega)
        simp only [List.append_assoc, List.singleton_append] at hstep
        simp only [hstep]
        simp [hx]

end ArrayLemmas

section EntryLemmas
variable {M : Type} [DecidableEq M]

theorem HasBreakPointObject_loop_eq (m : M) (arr : List (Option M)) :
    BreakPointInfo.HasBreakPointObject.loop m arr = decide (some m ∈ arr) := by
  induction arr with
  | nil => simp [BreakPointInfo.HasBreakPointObject.loop]
  | cons x rest ih =>
    by_cases hx : x = some m
    · simp [BreakPointInfo.HasBreakPointObject.loop, hx]
    · have hne : ¬ some m = x := fun h => hx h.symm
      simp [BreakPointInfo.HasBreakPointObject.loop, hx, ih, hne]

theorem HasBreakPointObject_array (p : Int) (arr : FixedArray M) (m : M) :
    BreakPointInfo.HasBreakPointObject
        { source_position := p, break_point_objects := BreakPointObjects.array arr } m =
      decide (some m ∈ arr) := by
  simp [BreakPointInfo.HasBreakPointObject, HasBreakPointObject_loop_eq]

theorem SetBreakPoint_undefined_eq (p : Int) (m : M) :
    BreakPointInfo.SetBreakPoint
        { source_position := p, break_point_objects := BreakPointObjects.undefined } m =
      some { source_position := p, break_point_objects := BreakPointObjects.single m } := rfl

theorem SetBreakPoint_single_eq (p : Int) (x m : M) :
    BreakPointInfo.SetBreakPoint
        { source_position := p, break_point_objects := BreakPointObjects.single x } m =
      some { source_position := p,
             break_point_objects :=
               if x = m then BreakPointObjects.single x
               else BreakPointObjects.array [some x, some m] } := by
  by_cases h : x = m
  · simp [BreakPointInfo.SetBreakPoint, h]
  · simp [BreakPointInfo.SetBreakPoint, h, NewFixedArray, FixedArray.set]

theorem SetBreakPoint_array_eq (p : Int) (arr : FixedArray M) (m : M) :
    BreakPointInfo.SetBreakPoint
        { source_position := p, break_point_objects := BreakPointObjects.array arr } m =
      some { source_position := p,
             break_point_objects :=
               if some m ∈ arr then BreakPointObjects.array arr
               else BreakPointObjects.array (arr ++ [some m]) } := by
  have hnew : (NewFixedArray ((arr.length : Int) + 1) : Option (FixedArray M)) =
      some (List.replicate (arr.length + 1) none) := by
    have := NewFixedArray_ofNat M (arr.length + 1)
    simpa using this
  have hloop := SetBreakPoint_loop_eq m arr [] 1
  simp only [List.length_nil, Nat.cast_zero, List.nil_append] at hloop
  simp only [BreakPointInfo.SetBreakPoint, hnew, hloop]
  by_cases h : some m ∈ arr
  · simp [h]
  · simp only [h, if_false]
    have hset := FixedArray.set_at_length arr none (some m) []
    simp only [List.replicate_one] at *
    simp [hset]

theorem ClearBreakPoint_undefined_eq (p : Int) (m : M) :
    BreakPointInfo.ClearBreakPoint
        { source_position := p, break_point_objects := BreakPointObjects.undefined } m =
      some { source_position := p, break_point_objects := BreakPointObjects.undefined } := rfl

theorem ClearBreakPoint_single_eq (p : Int) (x m : M) :
    BreakPointInfo.ClearBreakPoint
        { source_position := p, break_point_objects := BreakPointObjects.single x } m =
      some { source_position := p,
             break_point_objects :=
               if x = m then BreakPointObjects.undefined else BreakPointObjects.single x } := by
  by_cases h : x = m
  · simp [BreakPointInfo.ClearBreakPoint, h]
  · simp [BreakPointInfo.ClearBreakPoint, h]

theorem length_filter_ne_add_count {α : Type} [DecidableEq α] (a : α) (l : List α) :
    (l.filter (fun y => !decide (y = a))).length + (l.filter (fun y => decide (y = a))).length = l.length := by
  induction l with
  | nil => simp
  | cons x rest ih =>
    by_cases hx : x = a
    · simp [hx]; omega
    · simp [hx]; omega

theorem ClearBreakPoint_array_eq (p : Int) (arr : FixedArray M) (m : M) :
    BreakPointInfo.ClearBreakPoint
        { source_position := p, break_point_objects := BreakPointObjects.array arr } m =
      if some m ∈ arr then
        some { source_position := p,
               break_point_objects :=
                 BreakPointObjects.array
                   (arr.filter (fun y => !decide (y = some m)) ++
                     List.replicate ((arr.filter (fun y => decide (y = some m))).length - 1) none) }
      else none := by
  have hlen := length_filter_ne_add_count (some m) arr
  by_cases hmem : some m ∈ arr
  · have hcount : 0 < (arr.filter (fun y => decide (y = some m))).length := by
      apply List.length_pos_of_mem (List.mem_filter.mpr ⟨hmem, by simp⟩)
    have hnew : (NewFixedArray ((arr.length : Int) - 1) : Option (FixedArray M)) =
        some (List.replicate (arr.length - 1) none) := by
      have := NewFixedArray_ofNat M (arr.length - 1)
      rw [← this]; congr 1; omega
    have hloop := ClearBreakPoint_loop_eq m arr [] (arr.length - 1) 0 0 (by simp)
    simp only [List.nil_append] at hloop
    have hle : (arr.filter (fun y => !decide (y = some m))).length ≤ arr.length - 1 := by omega
    have hsub : arr.length - 1 - (arr.filter (fun y => !decide (y = some m))).length =
        (arr.filter (fun y => decide (y = some m))).length - 1 := by omega
    simp only [BreakPointInfo.ClearBreakPoint, hnew, hloop, hle, if_true, hsub, hmem]
    have hpos : (0 : Int) + ((arr.filter (fun y => decide (y = some m))).length : Int) > 0 := by omega
    simp only [hpos, if_true]
  · simp only [hmem, if_false]
    have hcount : (arr.filter (fun y => decide (y = some m))).length = 0 := by
      rw [List.length_eq_zero, List.filter_eq_nil_iff]
      intro a ha; simp; intro h; exact hmem (h ▸ ha)
    cases arr with
    | nil => simp [BreakPointInfo.ClearBreakPoint, NewFixedArray]
    | cons x rest =>
      have hnew : (NewFixedArray (((x :: rest).length : Int) - 1) : Option (FixedArray M)) =
          some (List.replicate rest.length none) := by
        have := NewFixedArray_ofNat M rest.length
        rw [← this]; congr 1; simp
      have hloop := ClearBreakPoint_loop_eq m (x :: rest) [] rest.length 0 0 (by simp)
      simp only [List.nil_append] at hloop
      have hgt : ¬ ((x :: rest).filter (fun y => !decide (y = some m))).length ≤ rest.length := by
        simp only [List.length_cons] at hlen; omega
      simp only [BreakPointInfo.ClearBreakPoint, hnew, hloop, hgt, if_false]

end EntryLemmas

/-! ## Entries -/

section EntryFacts
variable {M : Type} [DecidableEq M]

theorem HasBreakPointObject_iff_mem (info : BreakPointInfo M) (x : M) :
    info.HasBreakPointObject x = true ↔ x ∈ info.markers := by
  obtain ⟨p, objs⟩ := info
  cases objs with
  | undefined => simp [BreakPointInfo.HasBreakPointObject, BreakPointInfo.markers]
  | single y =>
    simp [BreakPointInfo.HasBreakPointObject, BreakPointInfo.markers, eq_comm]
  | array arr =>
    simp [HasBreakPointObject_array, BreakPointInfo.markers, List.reduceOption_mem_iff]

theorem HasBreakPointObject_eq_false_iff (info : BreakPointInfo M) (x : M) :
    info.HasBreakPointObject x = false ↔ x ∉ info.markers := by
  rw [← HasBreakPointObject_iff_mem]; simp

theorem SetBreakPoint_spec (info : BreakPointInfo M) (m : M) :
    ∃ info1, info.SetBreakPoint m = some info1 ∧
      info1.source_position = info.source_position ∧
      info1.markers = (if m ∈ info.markers then info.markers else info.markers ++ [m]) ∧
      (m ∈ info.markers → info1 = info) ∧
      info1.GetBreakPointCount =
        info.GetBreakPointCount + (if m ∈ info.markers then 0 else 1) ∧
      (info.NoHoles → info1.NoHoles) := by
  obtain ⟨p, objs⟩ := info
  cases objs with
  | undefined =>
    refine ⟨_, SetBreakPoint_undefined_eq p m, rfl, ?_, ?_, ?_, ?_⟩ <;>
      simp [BreakPointInfo.markers, BreakPointInfo.GetBreakPointCount, BreakPointInfo.NoHoles]
  | single y =>
    refine ⟨_, SetBreakPoint_single_eq p y m, rfl, ?_, ?_, ?_, ?_⟩
    · by_cases h : y = m
      · simp [BreakPointInfo.markers, h]
      · have h2 : ¬ m = y := fun e => h e.symm
        simp [BreakPointInfo.markers, h, h2, List.reduceOption]
    · intro hm
      have : y = m := by simpa [BreakPointInfo.markers, eq_comm] using hm
      simp [this]
    · by_cases h : y = m
      · simp [BreakPointInfo.markers, BreakPointInfo.GetBreakPointCount, h]
      · have h2 : ¬ m = y := fun e => h e.symm
        simp [BreakPointInfo.markers, BreakPointInfo.GetBreakPointCount, h, h2]
    · intro _
      by_cases h : y = m
      · simp [BreakPointInfo.NoHoles, h]
      · simp [BreakPointInfo.NoHoles, h]
  | array arr =>
    refine ⟨_, SetBreakPoint_array_eq p arr m, rfl, ?_, ?_, ?_, ?_⟩
    · by_cases h : some m ∈ arr
      · simp [BreakPointInfo.markers, h, List.reduceOption_mem_iff]
      · simp [BreakPointInfo.markers, h, List.reduceOption_mem_iff, List.reduceOption_append,
          List.reduceOption]
    · intro hm
      have : some m ∈ arr := by
        simpa [BreakPointInfo.markers, List.reduceOption_mem_iff] using hm
      simp [this]
    · by_cases h : some m ∈ arr
      · simp [BreakPointInfo.markers, BreakPointInfo.GetBreakPointCount, h,
          List.reduceOption_mem_iff]
      · simp [BreakPointInfo.markers, BreakPointInfo.GetBreakPointCount, h,
          List.reduceOption_mem_iff]
    · intro hh
      by_cases h : some m ∈ arr
      · simpa [BreakPointInfo.NoHoles, h] using hh
      · simp only [BreakPointInfo.NoHoles] at hh
        simp [BreakPointInfo.NoHoles, h, hh]


theorem reduceOption_replicate_none {α : Type} (n : Nat) :
    (List.replicate n (none : Option α)).reduceOption = [] := by
  induction n with
  | zero => rfl
  | succ n ih => rw [List.replicate_succ, List.reduceOption_cons_of_none, ih]

theorem reduceOption_filter_ne (m : M) (arr : List (Option M)) :
    (arr.filter (fun y => !decide (y = some m))).reduceOption =
      arr.reduceOption.filter (fun x => !decide (x = m)) := by
  induction arr with
  | nil => rfl
  | cons x rest ih =>
    cases x with
    | none => simp [List.reduceOption_cons_of_none, ih]
    | some y =>
      by_cases h : y = m
      · simp [List.reduceOption_cons_of_some, ih, h]
      · simp [List.reduceOption_cons_of_some, ih, h]

theorem length_filter_eq_reduceOption (m : M) (arr : List (Option M)) :
    (arr.filter (fun y => decide (y = some m))).length =
      (arr.reduceOption.filter (fun x => decide (x = m))).length := by
  induction arr with
  | nil => rfl
  | cons x rest ih =>
    cases x with
    | none => simp [List.reduceOption_cons_of_none, ih]
    | some y =>
      by_cases h : y = m
      · simp [List.reduceOption_cons_of_some, ih, h]
      · simp [List.reduceOption_cons_of_some, ih, h]

theorem length_filter_eq_le_one {α : Type} [DecidableEq α] (a : α) (l : List α)
    (h : l.Nodup) : (l.filter (fun x => decide (x = a))).length ≤ 1 := by
  induction l with
  | nil => simp
  | cons x rest ih =>
    rw [List.nodup_cons] at h
    by_cases hx : x = a
    · have hnil : rest.filter (fun x => decide (x = a)) = [] := by
        rw [List.filter_eq_nil_iff]
        intro y hy; simp; intro e; exact h.1 (hx ▸ e ▸ hy)
      simp [hx, hnil]
    · simpa [hx] using ih h.2

theorem filter_ne_eq_erase {M : Type} [DecidableEq M] (a : Option M) (l : List (Option M))
    (h : (l.filter (fun x => decide (x = a))).length ≤ 1) :
    l.filter (fun x => !decide (x = a)) = l.erase a := by
  induction l with
  | nil => rfl
  | cons x rest ih =>
    by_cases hx : x = a
    · subst hx
      have hnil : rest.filter (fun y => decide (y = x)) = [] := by
        simp at h; simpa using h
      have hall : rest.filter (fun y => !decide (y = x)) = rest := by
        rw [List.filter_eq_self]
        intro y hy
        rw [List.filter_eq_nil_iff] at hnil
        simpa using hnil y hy
      simp [hall]
    · have h2 : (rest.filter (fun x => decide (x = a))).length ≤ 1 := by simpa [hx] using h
      have hbeq : (x == a) = false := by simpa using hx
      rw [List.erase_cons_tail (by simp [hbeq])]
      simp [hx, ih h2]

theorem ClearBreakPoint_spec (info : BreakPointInfo M) (m : M) (hm : m ∈ info.markers) :
    ∃ info1, info.ClearBreakPoint m = some info1 ∧
      info1.source_position = info.source_position ∧
      info1.markers = info.markers.filter (fun x => !decide (x = m)) ∧
      info1.GetBreakPointCount + 1 = info.GetBreakPointCount ∧
      (info.markers.Nodup → info.NoHoles → info1.NoHoles) := by
  obtain ⟨p, objs⟩ := info
  cases objs with
  | undefined => simp [BreakPointInfo.markers] at hm
  | single y =>
    have hy : y = m := by simpa [BreakPointInfo.markers, eq_comm] using hm
    refine ⟨_, ClearBreakPoint_single_eq p y m, rfl, ?_, ?_, ?_⟩ <;>
      simp [BreakPointInfo.markers, BreakPointInfo.GetBreakPointCount,
        BreakPointInfo.NoHoles, hy]
  | array arr =>
    have hmem : some m ∈ arr := by
      simpa [BreakPointInfo.markers, List.reduceOption_mem_iff] using hm
    have hocc : 0 < (arr.filter (fun y => decide (y = some m))).length :=
      List.length_pos_of_mem (List.mem_filter.mpr ⟨hmem, by simp⟩)
    have hlen := length_filter_ne_add_count (some m) arr
    have heq := ClearBreakPoint_array_eq p arr m
    simp only [hmem, if_true] at heq
    refine ⟨_, heq, rfl, ?_, ?_, ?_⟩
    · simp [BreakPointInfo.markers, List.reduceOption_append, reduceOption_filter_ne,
        reduceOption_replicate_none]
    · simp only [BreakPointInfo.GetBreakPointCount, List.length_append, List.length_replicate]
      omega
    · intro hnd hh
      have hone : (arr.filter (fun y => decide (y = some m))).length ≤ 1 := by
        rw [length_filter_eq_reduceOption]
        exact length_filter_eq_le_one m _ hnd
      have hzero : (arr.filter (fun y => decide (y = some m))).length - 1 = 0 := by omega
      simp only [BreakPointInfo.NoHoles] at hh
      simp only [BreakPointInfo.NoHoles, hzero, List.replicate_zero, List.append_nil,
        List.mem_filter, not_and]
      intro h; exact absurd h hh

end EntryFacts

/-! ## Scanning the table -/

section TableScans

/-- Any loop that returns the first entry satisfying `P`, with its slot, is characterised
by its three equations. -/
theorem scan_some_iff {M : Type} (P : BreakPointInfo M → Bool)
    (f : List (Option (BreakPointInfo M)) → Nat → Option (Nat × BreakPointInfo M))
    (hnil : ∀ i, f [] i = none)
    (hnone : ∀ rest i, f (none :: rest) i = f rest (i + 1))
    (hsome : ∀ a rest i,
      f (some a :: rest) i = if P a = true then some (i, a) else f rest (i + 1))
    (l : List (Option (BreakPointInfo M))) :
    ∀ (i k : Nat) (info : BreakPointInfo M),
      f l i = some (k, info) ↔
        ∃ j, k = i + j ∧ l[j]? = some (some info) ∧ P info = true ∧
          ∀ j1, j1 < j → ∀ b, l[j1]? = some (some b) → P b = false := by
  induction l with
  | nil => intro i k info; simp [hnil]
  | cons x rest ih =>
    intro i k info
    have shift : (∃ j, k = i + 1 + j ∧ rest[j]? = some (some info) ∧ P info = true ∧
          ∀ j1, j1 < j → ∀ b, rest[j1]? = some (some b) → P b = false) →
        ∀ (_h0 : ∀ b, x = some b → P b = false),
        ∃ j, k = i + j ∧ (x :: rest)[j]? = some (some info) ∧ P info = true ∧
          ∀ j1, j1 < j → ∀ b, (x :: rest)[j1]? = some (some b) → P b = false := by
      rintro ⟨j, hk, hj, hP, hall⟩ h0
      refine ⟨j + 1, by omega, by simpa using hj, hP, ?_⟩
      intro j1 hj1 b hb
      cases j1 with
      | zero =>
        simp only [List.getElem?_cons_zero, Option.some.injEq] at hb
        exact h0 b hb
      | succ j1 =>
        simp only [List.getElem?_cons_succ] at hb
        exact hall j1 (by omega) b hb
    have unshift : ∀ j, 0 < j → k = i + j → (x :: rest)[j]? = some (some info) →
        P info = true →
        (∀ j1, j1 < j → ∀ b, (x :: rest)[j1]? = some (some b) → P b = false) →
        ∃ j, k = i + 1 + j ∧ rest[j]? = some (some info) ∧ P info = true ∧
          ∀ j1, j1 < j → ∀ b, rest[j1]? = some (some b) → P b = false := by
      intro j hpos hk hj hP hall
      cases j with
      | zero => omega
      | succ j =>
        refine ⟨j, by omega, by simpa using hj, hP, ?_⟩
        intro j1 hj1 b hb
        exact hall (j1 + 1) (by omega) b (by simpa using hb)
    cases x with
    | none =>
      rw [hnone, ih]
      constructor
      · intro h; exact shift h (by intro b hb; cases hb)
      · rintro ⟨j, hk, hj, hP, hall⟩
        cases j with
        | zero => simp at hj
        | succ j => exact unshift (j + 1) (by omega) hk hj hP hall
    | some a =>
      rw [hsome]
      by_cases hPa : P a = true
      · simp only [hPa, if_true, Option.some.injEq, Prod.mk.injEq]
        constructor
        · rintro ⟨rfl, rfl⟩
          exact ⟨0, by omega, by simp, hPa, by intro j1 hj1; omega⟩
        · rintro ⟨j, hk, hj, hP, hall⟩
          cases j with
          | zero =>
            simp only [List.getElem?_cons_zero, Option.some.injEq] at hj
            exact ⟨by omega, hj⟩
          | succ j =>
            have := hall 0 (by omega) a (by simp)
            rw [hPa] at this; cases this
      · rw [if_neg hPa, ih]
        have hPa2 : P a = false := by simpa using hPa
        constructor
        · intro h
          exact shift h (by intro b hb; cases hb; exact hPa2)
        · rintro ⟨j, hk, hj, hP, hall⟩
          cases j with
          | zero =>
            simp only [List.getElem?_cons_zero, Option.some.injEq] at hj
            rw [hj] at hPa; exact absurd hP hPa
          | succ j => exact unshift (j + 1) (by omega) hk hj hP hall

theorem scan_none_iff {M : Type} (P : BreakPointInfo M → Bool)
    (f : List (Option (BreakPointInfo M)) → Nat → Option (Nat × BreakPointInfo M))
    (hnil : ∀ i, f [] i = none)
    (hnone : ∀ rest i, f (none :: rest) i = f rest (i + 1))
    (hsome : ∀ a rest i,
      f (some a :: rest) i = if P a = true then some (i, a) else f rest (i + 1))
    (l : List (Option (BreakPointInfo M))) :
    ∀ (i : Nat), f l i = none ↔ ∀ b, some b ∈ l → P b = false := by
  induction l with
  | nil => intro i; simp [hnil]
  | cons x rest ih =>
    intro i
    cases x with
    | none => rw [hnone, ih]; simp
    | some a =>
      rw [hsome]
      by_cases hPa : P a = true
      · simp only [hPa, if_true]
        constructor
        · intro h; cases h
        · intro h
          have := h a (by simp)
          rw [hPa] at this; cases this
      · have hPa2 : P a = false := by simpa using hPa
        rw [if_neg hPa, ih]
        constructor
        · intro h b hb
          simp only [List.mem_cons, Option.some.injEq] at hb
          rcases hb with rfl | hb
          · exact hPa2
          · exact h b hb
        · intro h b hb; exact h b (by simp [hb])


theorem GetBreakPointInfo_loop_some_iff {M : Type} (p : Int)
    (l : List (Option (BreakPointInfo M))) (k : Nat) (info : BreakPointInfo M) :
    DebugInfo.GetBreakPointInfo.loop p l 0 = some (k, info) ↔
      l[k]? = some (some info) ∧ info.source_position = p ∧
        ∀ j, j < k → ∀ b, l[j]? = some (some b) → b.source_position ≠ p := by
  have h := scan_some_iff (fun a : BreakPointInfo M => decide (a.source_position = p))
    (DebugInfo.GetBreakPointInfo.loop p) (fun _ => rfl) (fun _ _ => rfl)
    (fun a rest i => by simp [DebugInfo.GetBreakPointInfo.loop]) l 0 k info
  rw [h]
  constructor
  · rintro ⟨j, hk, hj, hP, hall⟩
    have hkj : k = j := by omega
    subst hkj
    exact ⟨hj, by simpa using hP, fun j1 hj1 b hb => by simpa using hall j1 hj1 b hb⟩
  · rintro ⟨hj, hP, hall⟩
    exact ⟨k, by omega, hj, by simpa using hP,
      fun j1 hj1 b hb => by simpa using hall j1 hj1 b hb⟩

theorem GetBreakPointInfo_loop_none_iff {M : Type} (p : Int)
    (l : List (Option (BreakPointInfo M))) :
    DebugInfo.GetBreakPointInfo.loop p l 0 = none ↔
      ∀ b, some b ∈ l → b.source_position ≠ p := by
  have h := scan_none_iff (fun a : BreakPointInfo M => decide (a.source_position = p))
    (DebugInfo.GetBreakPointInfo.loop p) (fun _ => rfl) (fun _ _ => rfl)
    (fun a rest i => by simp [DebugInfo.GetBreakPointInfo.loop]) l 0
  rw [h]; simp

theorem FindBreakPointInfo_loop_some_iff {M : Type} [DecidableEq M] (m : M)
    (l : List (Option (BreakPointInfo M))) (k : Nat) (info : BreakPointInfo M) :
    DebugInfo.FindBreakPointInfo.loop m l 0 = some (k, info) ↔
      l[k]? = some (some info) ∧ m ∈ info.markers ∧
        ∀ j, j < k → ∀ b, l[j]? = some (some b) → m ∉ b.markers := by
  have h := scan_some_iff (fun a : BreakPointInfo M => a.HasBreakPointObject m)
    (DebugInfo.FindBreakPointInfo.loop m) (fun _ => rfl) (fun _ _ => rfl)
    (fun a rest i => by simp [DebugInfo.FindBreakPointInfo.loop]) l 0 k info
  rw [h]
  constructor
  · rintro ⟨j, hk, hj, hP, hall⟩
    have hkj : k = j := by omega
    subst hkj
    exact ⟨hj, (HasBreakPointObject_iff_mem info m).mp hP, fun j1 hj1 b hb =>
      (HasBreakPointObject_eq_false_iff b m).mp (hall j1 hj1 b hb)⟩
  · rintro ⟨hj, hP, hall⟩
    exact ⟨k, by omega, hj, (HasBreakPointObject_iff_mem info m).mpr hP,
      fun j1 hj1 b hb => (HasBreakPointObject_eq_false_iff b m).mpr (hall j1 hj1 b hb)⟩

theorem FindBreakPointInfo_loop_none_iff {M : Type} [DecidableEq M] (m : M)
    (l : List (Option (BreakPointInfo M))) :
    DebugInfo.FindBreakPointInfo.loop m l 0 = none ↔
      ∀ b, some b ∈ l → m ∉ b.markers := by
  have h := scan_none_iff (fun a : BreakPointInfo M => a.HasBreakPointObject m)
    (DebugInfo.FindBreakPointInfo.loop m) (fun _ => rfl) (fun _ _ => rfl)
    (fun a rest i => by simp [DebugInfo.FindBreakPointInfo.loop]) l 0
  rw [h]
  constructor
  · intro hall b hb; exact (HasBreakPointObject_eq_false_iff b m).mp (hall b hb)
  · intro hall b hb; exact (HasBreakPointObject_eq_false_iff b m).mpr (hall b hb)

end TableScans

/-! ## The table operations in closed form -/

section TableOperations

theorem FixedArray.set_of_lt {α : Type} (array : FixedArray α) (k : Nat) (v : Option α)
    (h : k < array.length) :
    FixedArray.set array (k : Int) v = some (List.set array k v) := by
  have h2 : (0 : Int) ≤ (k : Int) ∧ (k : Int) < (array.length : Int) := by omega
  simp only [FixedArray.set, h2, and_self, if_true, Int.toNat_ofNat]

theorem freeLoop_spec {M : Type} (l : List (Option (BreakPointInfo M))) :
    ∀ (i : Int), 0 ≤ i →
      (none ∉ l ∧ DebugInfo.SetBreakPoint.freeLoop l i = kNoBreakPointInfo) ∨
      (∃ j : Nat, l[j]? = some none ∧ (∀ j1, j1 < j → l[j1]? ≠ some none) ∧
        DebugInfo.SetBreakPoint.freeLoop l i = i + (j : Int)) := by
  induction l with
  | nil => intro i _; left; simp [DebugInfo.SetBreakPoint.freeLoop]
  | cons x rest ih =>
    intro i hi
    cases x with
    | none =>
      right
      exact ⟨0, by simp, by intro j1 hj1; omega, by simp [DebugInfo.SetBreakPoint.freeLoop]⟩
    | some a =>
      rcases ih (i + 1) (by omega) with ⟨hno, hf⟩ | ⟨j, hj, hall, hf⟩
      · left
        exact ⟨by simp [hno], by simp [DebugInfo.SetBreakPoint.freeLoop, hf]⟩
      · right
        refine ⟨j + 1, by simpa using hj, ?_, ?_⟩
        · intro j1 hj1
          cases j1 with
          | zero => simp
          | succ j1 => simpa using hall j1 (by omega)
        · simp only [DebugInfo.SetBreakPoint.freeLoop, hf]; push_cast; omega

theorem copyLoop_eq {M : Type} (rest : List (Option (BreakPointInfo M))) :
    ∀ (pre : FixedArray (BreakPointInfo M)) (k : Nat),
      DebugInfo.SetBreakPoint.copyLoop rest (pre.length : Int)
          (pre ++ List.replicate (rest.length + k) none) =
        some (pre ++ rest ++ List.replicate k none) := by
  induction rest with
  | nil => intro pre k; simp [DebugInfo.SetBreakPoint.copyLoop]
  | cons x rest ih =>
    intro pre k
    have hrep : List.replicate (rest.length + 1 + k) (none : Option (BreakPointInfo M)) =
        none :: List.replicate (rest.length + k) none := by
      rw [show rest.length + 1 + k = (rest.length + k) + 1 by omega, List.replicate_succ]
    have hstep := ih (pre ++ [x]) k
    simp only [List.length_append, List.length_singleton, Nat.cast_add, Nat.cast_one,
      List.append_assoc, List.singleton_append] at hstep
    simp only [DebugInfo.SetBreakPoint.copyLoop, List.length_cons, hrep,
      FixedArray.set_at_length, hstep]
    simp

theorem extend_full {M : Type} (break_points : FixedArray (BreakPointInfo M)) :
    DebugInfo.SetBreakPoint.extend break_points kNoBreakPointInfo =
      some (break_points ++ List.replicate 4 none, (break_points.length : Int)) := by
  have hnew : (NewFixedArray ((break_points.length : Int) + kEstimatedNofBreakPointsInFunction) :
      Option (FixedArray (BreakPointInfo M))) =
      some (List.replicate (break_points.length + 4) none) := by
    have := NewFixedArray_ofNat (BreakPointInfo M) (break_points.length + 4)
    simpa [kEstimatedNofBreakPointsInFunction] using this
  have hcopy := copyLoop_eq break_points [] 4
  simp only [List.length_nil, Nat.cast_zero, List.nil_append] at hcopy
  simp only [DebugInfo.SetBreakPoint.extend, if_true, hnew, hcopy]

theorem extend_free {M : Type} (break_points : FixedArray (BreakPointInfo M)) (j : Nat) :
    DebugInfo.SetBreakPoint.extend break_points (j : Int) = some (break_points, (j : Int)) := by
  have h : ¬ ((j : Int) = kNoBreakPointInfo) := by
    simp only [kNoBreakPointInfo]; omega
  simp only [DebugInfo.SetBreakPoint.extend, h, if_false]

theorem DebugInfo_SetBreakPoint_found {M : Type} [DecidableEq M] (d : DebugInfo M) (p : Int)
    (m : M) (k : Nat) (info : BreakPointInfo M)
    (h : DebugInfo.GetBreakPointInfo.loop p d.break_points 0 = some (k, info)) :
    ∃ info1, info.SetBreakPoint m = some info1 ∧
      d.SetBreakPoint p m =
        some { break_points := List.set d.break_points k (some info1) } := by
  obtain ⟨info1, h1, _⟩ := SetBreakPoint_spec info m
  exact ⟨info1, h1, by simp only [DebugInfo.SetBreakPoint, h, h1]⟩

theorem DebugInfo_SetBreakPoint_new {M : Type} [DecidableEq M] (d : DebugInfo M) (p : Int)
    (m : M) (h : DebugInfo.GetBreakPointInfo.loop p d.break_points 0 = none) :
    ∃ (e k : Nat),
      (e = 0 ∨ (e = 4 ∧ none ∉ d.break_points ∧ k = d.break_points.length)) ∧
      (d.break_points ++ List.replicate e none)[k]? = some none ∧
      (∀ j, j < k → (d.break_points ++ List.replicate e none)[j]? ≠ some none) ∧
      d.SetBreakPoint p m =
        some (DebugInfo.mk
          (List.set (d.break_points ++ List.replicate e none) k
            (some (BreakPointInfo.mk p (BreakPointObjects.single m))))) := by
  have hnew : (NewBreakPointInfo p : BreakPointInfo M).SetBreakPoint m =
      some { source_position := p, break_point_objects := BreakPointObjects.single m } := rfl
  rcases freeLoop_spec d.break_points 0 (le_refl 0) with ⟨hno, hf⟩ | ⟨j, hj, hall, hf⟩
  · refine ⟨4, d.break_points.length, Or.inr ⟨rfl, hno, rfl⟩, ?_, ?_, ?_⟩
    · rw [List.getElem?_append_right (le_refl _)]; simp
    · intro j hj
      rw [List.getElem?_append_left hj]
      intro hc
      exact hno (List.getElem?_mem hc)
    · have hlt : d.break_points.length < (d.break_points ++ List.replicate 4 none).length := by
        simp
      simp only [DebugInfo.SetBreakPoint, h, hf, extend_full, hnew,
        FixedArray.set_of_lt _ _ _ hlt]
  · have hjlt : j < d.break_points.length := by
      by_contra hc
      rw [List.getElem?_eq_none (by omega)] at hj
      cases hj
    refine ⟨0, j, Or.inl rfl, by simpa using hj, by simpa using hall, ?_⟩
    have hf2 : DebugInfo.SetBreakPoint.freeLoop d.break_points 0 = (j : Int) := by
      rw [hf]; omega
    simp only [DebugInfo.SetBreakPoint, h, hf2, extend_free, hnew,
      FixedArray.set_of_lt _ _ _ hjlt, List.replicate_zero, List.append_nil]

theorem DebugInfo_ClearBreakPoint_found {M : Type} [DecidableEq M] (d : DebugInfo M) (m : M)
    (k : Nat) (info : BreakPointInfo M)
    (h : DebugInfo.FindBreakPointInfo.loop m d.break_points 0 = some (k, info)) :
    ∃ info1, info.ClearBreakPoint m = some info1 ∧
      d.ClearBreakPoint m =
        some ({ break_points := List.set d.break_points k (some info1) }, true) := by
  have hm : m ∈ info.markers := ((FindBreakPointInfo_loop_some_iff m _ k info).mp h).2.1
  obtain ⟨info1, h1, _⟩ := ClearBreakPoint_spec info m hm
  exact ⟨info1, h1, by simp only [DebugInfo.ClearBreakPoint, h, h1]⟩

theorem DebugInfo_ClearBreakPoint_none {M : Type} [DecidableEq M] (d : DebugInfo M) (m : M)
    (h : DebugInfo.FindBreakPointInfo.loop m d.break_points 0 = none) :
    d.ClearBreakPoint m = some (d, false) := by
  simp only [DebugInfo.ClearBreakPoint, h]

end TableOperations

/-! ## Facts shared by the theorems on tables -/

section TableFacts

theorem getElem?_append_replicate_none {α : Type} (l : List (Option α)) (e j : Nat) (b : α)
    (h : (l ++ List.replicate e none)[j]? = some (some b)) : l[j]? = some (some b) := by
  by_cases hj : j < l.length
  · rwa [List.getElem?_append_left hj] at h
  · rw [List.getElem?_append_right (by omega), List.getElem?_replicate] at h
    split at h <;> simp at h

theorem getElem?_set_same {α : Type} (l : List α) (k : Nat) (v s : α) (h : l[k]? = some s) :
    (List.set l k v)[k]? = some v := by
  have hk : k < l.length := by
    by_contra hc
    rw [List.getElem?_eq_none (by omega)] at h
    cases h
  rw [List.getElem?_set]; simp [hk]

theorem getElem?_set_other {α : Type} (l : List α) (k j : Nat) (v : α) (h : k ≠ j) :
    (List.set l k v)[j]? = l[j]? := by
  rw [List.getElem?_set]; simp [h]

theorem set_eq_self_of_getElem? {α : Type} (l : List α) (k : Nat) (v : α)
    (h : l[k]? = some v) : List.set l k v = l := by
  apply List.ext_getElem?
  intro j
  by_cases hj : k = j
  · subst hj; rw [getElem?_set_same l k v v h, h]
  · rw [getElem?_set_other l k j v hj]

theorem GetBreakPointInfo_loop_set {M : Type} (p : Int) (l : List (Option (BreakPointInfo M)))
    (k : Nat) (s : Option (BreakPointInfo M)) (info1 : BreakPointInfo M)
    (hk : l[k]? = some s) (hp : info1.source_position = p)
    (hbefore : ∀ j, j < k → ∀ b, l[j]? = some (some b) → b.source_position ≠ p) :
    DebugInfo.GetBreakPointInfo.loop p (List.set l k (some info1)) 0 = some (k, info1) := by
  rw [GetBreakPointInfo_loop_some_iff]
  refine ⟨getElem?_set_same l k _ s hk, hp, ?_⟩
  intro j hj b hb
  rw [getElem?_set_other l k j _ (by omega)] at hb
  exact hbefore j hj b hb

theorem markers_length_le_count {M : Type} (info : BreakPointInfo M) :
    info.markers.length ≤ info.GetBreakPointCount := by
  obtain ⟨p, objs⟩ := info
  cases objs with
  | undefined => simp [BreakPointInfo.markers, BreakPointInfo.GetBreakPointCount]
  | single y => simp [BreakPointInfo.markers, BreakPointInfo.GetBreakPointCount]
  | array arr =>
    simpa [BreakPointInfo.markers, BreakPointInfo.GetBreakPointCount] using
      List.reduceOption_length_le arr

theorem count_pos_of_mem_markers {M : Type} (info : BreakPointInfo M) (m : M)
    (h : m ∈ info.markers) : 0 < info.GetBreakPointCount :=
  Nat.lt_of_lt_of_le (List.length_pos_of_mem h) (markers_length_le_count info)

/-- What `DebugInfo::SetBreakPoint` does, in one statement: it returns, the entry found
for the position afterwards sits in slot `k` and has the break point object; every other
slot of the (possibly extended) table is as before. -/
theorem DebugInfo_SetBreakPoint_spec {M : Type} [DecidableEq M] (d : DebugInfo M) (p : Int)
    (m : M) :
    ∃ (e k : Nat) (s : Option (BreakPointInfo M)) (info1 : BreakPointInfo M),
      d.SetBreakPoint p m =
        some (DebugInfo.mk (List.set (d.break_points ++ List.replicate e none) k
          (some info1))) ∧
      (d.break_points ++ List.replicate e none)[k]? = some s ∧
      (∀ j, j < k → ∀ b, d.break_points[j]? = some (some b) → b.source_position ≠ p) ∧
      info1.source_position = p ∧ m ∈ info1.markers ∧
      ((∃ info, s = some info ∧ e = 0 ∧
          DebugInfo.GetBreakPointInfo.loop p d.break_points 0 = some (k, info) ∧
          info.SetBreakPoint m = some info1) ∨
        (s = none ∧ DebugInfo.GetBreakPointInfo.loop p d.break_points 0 = none ∧
          info1 = BreakPointInfo.mk p (BreakPointObjects.single m) ∧
          (∀ j, j < k → (d.break_points ++ List.replicate e none)[j]? ≠ some none) ∧
          (e = 0 ∨ (e = 4 ∧ none ∉ d.break_points ∧ k = d.break_points.length)))) := by
  cases h : DebugInfo.GetBreakPointInfo.loop p d.break_points 0 with
  | some r =>
    obtain ⟨k, info⟩ := r
    obtain ⟨hk, hp, hbefore⟩ := (GetBreakPointInfo_loop_some_iff p _ k info).mp h
    obtain ⟨info1, h1, hpos, hmark, _, _, _⟩ := SetBreakPoint_spec info m
    refine ⟨0, k, some info, info1, ?_, by simpa using hk, hbefore, by rw [hpos, hp], ?_,
      Or.inl ⟨info, rfl, rfl, rfl, h1⟩⟩
    · simp only [DebugInfo.SetBreakPoint, h, h1, List.replicate_zero, List.append_nil]
    · rw [hmark]; split
      · assumption
      · simp
  | none =>
    obtain ⟨e, k, he, hk, hfree, hset⟩ := DebugInfo_SetBreakPoint_new d p m h
    have hnone := (GetBreakPointInfo_loop_none_iff p d.break_points).mp h
    refine ⟨e, k, none, _, hset, hk, ?_, rfl, by simp [BreakPointInfo.markers],
      Or.inr ⟨rfl, rfl, rfl, hfree, he⟩⟩
    intro j _ b hb
    exact hnone b (List.getElem?_mem hb)

end TableFacts

/-! ## Theorems on the claims -/

/-- C1: for every table, source position `p` and break point object `m`,
`DebugInfo::SetBreakPoint(p, m)` returns, and afterwards `HasBreakPoint(p)` is true and
`GetBreakPointInfo(p)` returns an entry for which `HasBreakPointObject(m)` is true. -/
theorem SetBreakPoint_then_HasBreakPoint {M : Type} [DecidableEq M] (d : DebugInfo M) (p : Int) (m : M) :
    ∃ d1, d.SetBreakPoint p m = some d1 ∧ d1.HasBreakPoint p = true ∧
      ∃ info, d1.GetBreakPointInfo p = some info ∧ info.HasBreakPointObject m = true := by
  obtain ⟨e, k, s, info1, hset, hk, hbefore, hp, hm, _⟩ := DebugInfo_SetBreakPoint_spec d p m
  have hloop : DebugInfo.GetBreakPointInfo.loop p
      (List.set (d.break_points ++ List.replicate e none) k (some info1)) 0 =
      some (k, info1) :=
    GetBreakPointInfo_loop_set p _ k s info1 hk hp
      (fun j hj b hb => hbefore j hj b (getElem?_append_replicate_none _ e j b hb))
  refine ⟨_, hset, ?_, info1, ?_, (HasBreakPointObject_iff_mem info1 m).mpr hm⟩
  · simp only [DebugInfo.HasBreakPoint, DebugInfo.GetBreakPointInfo, hloop, Option.map_some']
    simpa using count_pos_of_mem_markers info1 m hm
  · simp only [DebugInfo.GetBreakPointInfo, hloop, Option.map_some']

/-- C2: idempotent insertion. For every table, position `p` and break point object `m`,
`DebugInfo::SetBreakPoint(p, m)` returns a table `d1`, and calling it again on `d1`
returns `d1` itself: the same slots, hence the same break point objects everywhere. -/
theorem SetBreakPoint_idempotent {M : Type} [DecidableEq M] (d : DebugInfo M) (p : Int)
    (m : M) :
    ∃ d1, d.SetBreakPoint p m = some d1 ∧ d1.SetBreakPoint p m = some d1 := by
  obtain ⟨e, k, s, info1, hset, hk, hbefore, hp, hm, _⟩ := DebugInfo_SetBreakPoint_spec d p m
  have hloop : DebugInfo.GetBreakPointInfo.loop p
      (List.set (d.break_points ++ List.replicate e none) k (some info1)) 0 =
      some (k, info1) :=
    GetBreakPointInfo_loop_set p _ k s info1 hk hp
      (fun j hj b hb => hbefore j hj b (getElem?_append_replicate_none _ e j b hb))
  obtain ⟨info2, h2, _, _, hsame, _⟩ := SetBreakPoint_spec info1 m
  rw [hsame hm] at h2
  refine ⟨_, hset, ?_⟩
  simp only [DebugInfo.SetBreakPoint, hloop, h2]
  rw [set_eq_self_of_getElem? _ k (some info1) (getElem?_set_same _ k _ s hk)]

/-- C3, as stated, fails: in the table reached by `SetBreakPoint(1, 7)` from four empty
slots, position 2 has no entry; `SetBreakPoint(2, 7)` followed by `ClearBreakPoint(7)`
removes the break point object from the entry of position 1, and `HasBreakPoint(2)`
stays true. -/
theorem SetBreakPoint_ClearBreakPoint_other_position :
    DebugInfo.Reachable
        (DebugInfo.mk [some (BreakPointInfo.mk 1 (BreakPointObjects.single (7 : Nat))),
          none, none, none]) ∧
      DebugInfo.GetBreakPointInfo
        (DebugInfo.mk [some (BreakPointInfo.mk 1 (BreakPointObjects.single (7 : Nat))),
          none, none, none]) 2 = none ∧
      DebugInfo.SetBreakPoint
        (DebugInfo.mk [some (BreakPointInfo.mk 1 (BreakPointObjects.single (7 : Nat))),
          none, none, none]) 2 7 =
        some (DebugInfo.mk [some (BreakPointInfo.mk 1 (BreakPointObjects.single 7)),
          some (BreakPointInfo.mk 2 (BreakPointObjects.single 7)), none, none]) ∧
      DebugInfo.ClearBreakPoint
        (DebugInfo.mk [some (BreakPointInfo.mk 1 (BreakPointObjects.single (7 : Nat))),
          some (BreakPointInfo.mk 2 (BreakPointObjects.single 7)), none, none]) 7 =
        some (DebugInfo.mk [some (BreakPointInfo.mk 1 BreakPointObjects.undefined),
          some (BreakPointInfo.mk 2 (BreakPointObjects.single 7)), none, none], true) ∧
      DebugInfo.HasBreakPoint
        (DebugInfo.mk [some (BreakPointInfo.mk 1 BreakPointObjects.undefined),
          some (BreakPointInfo.mk 2 (BreakPointObjects.single (7 : Nat))), none, none]) 2 =
        true := by
  refine ⟨?_, by decide, by decide, by decide, by decide⟩
  exact DebugInfo.Reachable.set 1 7 (DebugInfo.Reachable.empty 4) (by decide)

/-- C3, amended: for every table (so for every reachable one), every position `p` that has
no entry and every break point object `m` that no entry of the table has,
`SetBreakPoint(p, m)` followed by `ClearBreakPoint(m)` returns true and leaves
`HasBreakPoint(p)` false. -/
theorem SetBreakPoint_ClearBreakPoint_inverse {M : Type} [DecidableEq M] (d : DebugInfo M)
    (p : Int) (m : M) (hp : d.GetBreakPointInfo p = none)
    (hm : ∀ b, some b ∈ d.break_points → b.HasBreakPointObject m = false) :
    ∃ d1 d2, d.SetBreakPoint p m = some d1 ∧ d1.ClearBreakPoint m = some (d2, true) ∧
      d2.HasBreakPoint p = false := by
  have hnone : DebugInfo.GetBreakPointInfo.loop p d.break_points 0 = none := by
    simpa [DebugInfo.GetBreakPointInfo] using hp
  obtain ⟨e, k, s, info1, hset, hk, hbefore, _, _, hcase⟩ := DebugInfo_SetBreakPoint_spec d p m
  rcases hcase with ⟨info, _, _, hfound, _⟩ | ⟨_, _, hinfo1, _, _⟩
  · rw [hnone] at hfound; cases hfound
  · subst hinfo1
    have hk1 := getElem?_set_same (d.break_points ++ List.replicate e none) k
      (some (BreakPointInfo.mk p (BreakPointObjects.single m))) s hk
    have hfind : DebugInfo.FindBreakPointInfo.loop m
        (List.set (d.break_points ++ List.replicate e none) k
          (some (BreakPointInfo.mk p (BreakPointObjects.single m)))) 0 =
        some (k, BreakPointInfo.mk p (BreakPointObjects.single m)) := by
      rw [FindBreakPointInfo_loop_some_iff]
      refine ⟨hk1, by simp [BreakPointInfo.markers], ?_⟩
      intro j hj b hb
      rw [getElem?_set_other _ k j _ (by omega)] at hb
      have hb2 := getElem?_append_replicate_none _ e j b hb
      exact (HasBreakPointObject_eq_false_iff b m).mp (hm b (List.getElem?_mem hb2))
    have hclear : (BreakPointInfo.mk p (BreakPointObjects.single m)).ClearBreakPoint m =
        some (BreakPointInfo.mk p BreakPointObjects.undefined) := by
      rw [ClearBreakPoint_single_eq]; simp
    have hloop : DebugInfo.GetBreakPointInfo.loop p
        (List.set (List.set (d.break_points ++ List.replicate e none) k
          (some (BreakPointInfo.mk p (BreakPointObjects.single m)))) k
          (some (BreakPointInfo.mk p BreakPointObjects.undefined))) 0 =
        some (k, BreakPointInfo.mk p BreakPointObjects.undefined) := by
      apply GetBreakPointInfo_loop_set p _ k _ _ hk1 rfl
      intro j hj b hb
      rw [getElem?_set_other _ k j _ (by omega)] at hb
      exact hbefore j hj b (getElem?_append_replicate_none _ e j b hb)
    refine ⟨_, DebugInfo.mk (List.set (List.set (d.break_points ++ List.replicate e none) k
          (some (BreakPointInfo.mk p (BreakPointObjects.single m)))) k
          (some (BreakPointInfo.mk p BreakPointObjects.undefined))), hset, ?_, ?_⟩
    · simp only [DebugInfo.ClearBreakPoint, hfind, hclear]
    · simp only [DebugInfo.HasBreakPoint, DebugInfo.GetBreakPointInfo, hloop,
        Option.map_some', BreakPointInfo.GetBreakPointCount]
      simp

/-- Witness for C3, amended: four empty slots, position 2, break point object 7. -/
theorem SetBreakPoint_ClearBreakPoint_inverse_witness :
    ∃ d1 d2, (DebugInfo.mk (List.replicate 4 none) : DebugInfo Nat).SetBreakPoint 2 7 =
        some d1 ∧ d1.ClearBreakPoint 7 = some (d2, true) ∧ d2.HasBreakPoint 2 = false :=
  SetBreakPoint_ClearBreakPoint_inverse (DebugInfo.mk (List.replicate 4 none)) 2 7
    (by decide) (by simp)

/-- C5, as stated, fails: the table reached by `SetBreakPoint(10, 1)` from four empty
slots holds an entry for position 10, yet `ClearBreakPoint` for the break point object 2,
which that entry does not have, returns false. -/
theorem ClearBreakPoint_false_with_entry :
    DebugInfo.SetBreakPoint (DebugInfo.mk (List.replicate 4 none) : DebugInfo Nat) 10 1 =
        some (DebugInfo.mk [some (BreakPointInfo.mk 10 (BreakPointObjects.single 1)),
          none, none, none]) ∧
      DebugInfo.GetBreakPointInfo
        (DebugInfo.mk [some (BreakPointInfo.mk 10 (BreakPointObjects.single (1 : Nat))),
          none, none, none]) 10 =
        some (BreakPointInfo.mk 10 (BreakPointObjects.single 1)) ∧
      DebugInfo.ClearBreakPoint
        (DebugInfo.mk [some (BreakPointInfo.mk 10 (BreakPointObjects.single (1 : Nat))),
          none, none, none]) 2 =
        some (DebugInfo.mk [some (BreakPointInfo.mk 10 (BreakPointObjects.single 1)),
          none, none, none], false) := by
  decide

/-- C5, amended: `DebugInfo::ClearBreakPoint` takes the break point object only and
returns; its result is true if and only if some occupied slot holds an entry that has the
break point object, whatever positions have entries. -/
theorem ClearBreakPoint_true_iff {M : Type} [DecidableEq M] (d : DebugInfo M) (m : M) :
    ∃ d1 result, d.ClearBreakPoint m = some (d1, result) ∧
      (result = true ↔
        ∃ info, some info ∈ d.break_points ∧ info.HasBreakPointObject m = true) := by
  cases h : DebugInfo.FindBreakPointInfo.loop m d.break_points 0 with
  | none =>
    refine ⟨d, false, DebugInfo_ClearBreakPoint_none d m h, ?_⟩
    have hall := (FindBreakPointInfo_loop_none_iff m d.break_points).mp h
    constructor
    · intro hc; cases hc
    · rintro ⟨info, hin, hhas⟩
      exact absurd ((HasBreakPointObject_iff_mem info m).mp hhas) (hall info hin)
  | some r =>
    obtain ⟨k, info⟩ := r
    obtain ⟨info1, _, hclear⟩ := DebugInfo_ClearBreakPoint_found d m k info h
    obtain ⟨hk, hmem, _⟩ := (FindBreakPointInfo_loop_some_iff m _ k info).mp h
    exact ⟨_, true, hclear, fun _ =>
      ⟨info, List.getElem?_mem hk, (HasBreakPointObject_iff_mem info m).mpr hmem⟩,
      fun _ => rfl⟩

/-- C6: for every table in which no entry has the break point object `m`,
`DebugInfo::ClearBreakPoint` for `m` returns false and leaves the table unchanged. -/
theorem ClearBreakPoint_absent {M : Type} [DecidableEq M] (d : DebugInfo M) (m : M)
    (h : ∀ info, some info ∈ d.break_points → info.HasBreakPointObject m = false) :
    d.ClearBreakPoint m = some (d, false) := by
  apply DebugInfo_ClearBreakPoint_none
  rw [FindBreakPointInfo_loop_none_iff]
  intro b hb
  exact (HasBreakPointObject_eq_false_iff b m).mp (h b hb)

/-- Witness for C6: a table whose only entry has the break point object 1, cleared for
the break point object 2. -/
theorem ClearBreakPoint_absent_witness :
    (∀ info, some info ∈ (DebugInfo.mk
          [some (BreakPointInfo.mk 10 (BreakPointObjects.single (1 : Nat))), none]
        ).break_points → info.HasBreakPointObject 2 = false) ∧
      DebugInfo.ClearBreakPoint
        (DebugInfo.mk [some (BreakPointInfo.mk 10 (BreakPointObjects.single (1 : Nat))), none])
        2 =
        some (DebugInfo.mk [some (BreakPointInfo.mk 10 (BreakPointObjects.single 1)), none],
          false) :=
  ⟨by intro info h; simp at h; subst h; decide,
   ClearBreakPoint_absent _ 2 (by intro info h; simp at h; subst h; decide)⟩

/-! ## Invariants of entries and tables -/

section Invariants

theorem SetBreakPoint_preserves {M : Type} [DecidableEq M] (info info1 : BreakPointInfo M)
    (m : M) (h : info.SetBreakPoint m = some info1) :
    info1.source_position = info.source_position ∧
      (info.markers.Nodup → info1.markers.Nodup) ∧ (info.NoHoles → info1.NoHoles) := by
  obtain ⟨info2, h2, hpos, hmark, _, _, hholes⟩ := SetBreakPoint_spec info m
  rw [h] at h2
  cases h2
  refine ⟨hpos, ?_, hholes⟩
  intro hnd
  rw [hmark]
  split
  · exact hnd
  · rename_i hnot
    exact List.Nodup.append hnd (List.nodup_singleton m) (by simpa using hnot)

theorem ClearBreakPoint_preserves {M : Type} [DecidableEq M] (info info1 : BreakPointInfo M)
    (m : M) (hm : m ∈ info.markers) (h : info.ClearBreakPoint m = some info1) :
    info1.source_position = info.source_position ∧
      (info.markers.Nodup → info1.markers.Nodup) ∧
      (info.markers.Nodup → info.NoHoles → info1.NoHoles) := by
  obtain ⟨info2, h2, hpos, hmark, _, hholes⟩ := ClearBreakPoint_spec info m hm
  rw [h] at h2
  cases h2
  refine ⟨hpos, ?_, hholes⟩
  intro hnd
  rw [hmark]
  exact List.Nodup.filter _ hnd

theorem Built_nodup {M : Type} [DecidableEq M] (info : BreakPointInfo M)
    (h : BreakPointInfo.Built info) : info.markers.Nodup := by
  induction h with
  | fresh p => simp [NewBreakPointInfo, BreakPointInfo.markers]
  | set m _ hset ih => exact (SetBreakPoint_preserves _ _ m hset).2.1 ih
  | clear m _ hhas hclear ih =>
    exact (ClearBreakPoint_preserves _ _ m ((HasBreakPointObject_iff_mem _ m).mp hhas)
      hclear).2.1 ih

theorem UniquePositions_set {M : Type} (l : List (Option (BreakPointInfo M))) (k : Nat)
    (s : Option (BreakPointInfo M)) (info1 : BreakPointInfo M)
    (hu : DebugInfo.UniquePositions l) (_hk : l[k]? = some s)
    (hother : ∀ j b, j ≠ k → l[j]? = some (some b) →
      b.source_position ≠ info1.source_position) :
    DebugInfo.UniquePositions (List.set l k (some info1)) := by
  intro i j a b hi hj hab
  by_cases hik : k = i
  · by_cases hjk : k = j
    · omega
    · rw [getElem?_set_other l k j _ hjk] at hj
      subst hik
      rw [List.getElem?_set] at hi
      simp only [if_true] at hi
      split at hi
      · cases hi
        exact absurd hab.symm (hother j b (fun e => hjk e.symm) hj)
      · cases hi
  · rw [getElem?_set_other l k i _ hik] at hi
    by_cases hjk : k = j
    · subst hjk
      rw [List.getElem?_set] at hj
      simp only [if_true] at hj
      split at hj
      · cases hj
        exact absurd hab (hother i a (fun e => hik e.symm) hi)
      · cases hj
    · rw [getElem?_set_other l k j _ hjk] at hj
      exact hu i j a b hi hj hab

theorem UniquePositions_append_none {M : Type} (l : List (Option (BreakPointInfo M)))
    (e : Nat) (hu : DebugInfo.UniquePositions l) :
    DebugInfo.UniquePositions (l ++ List.replicate e none) := by
  intro i j a b hi hj hab
  exact hu i j a b (getElem?_append_replicate_none l e i a hi)
    (getElem?_append_replicate_none l e j b hj) hab

theorem mem_append_replicate_none {α : Type} (l : List (Option α)) (e : Nat) (a : α)
    (h : some a ∈ l ++ List.replicate e none) : some a ∈ l := by
  rcases List.mem_append.mp h with h1 | h1
  · exact h1
  · have := List.eq_of_mem_replicate h1
    cases this

/-- The invariant of reachable tables: positions are unique, and every entry holds each
break point object once and has no slot holding `undefined`. -/
theorem Reachable_invariant {M : Type} [DecidableEq M] (d : DebugInfo M)
    (h : DebugInfo.Reachable d) :
    DebugInfo.UniquePositions d.break_points ∧
      ∀ info, some info ∈ d.break_points → info.markers.Nodup ∧ info.NoHoles := by
  induction h with
  | empty n =>
    constructor
    · intro i j a b hi _ _
      have := List.getElem?_mem hi
      have := List.eq_of_mem_replicate this
      cases this
    · intro info hin
      have := List.eq_of_mem_replicate hin
      cases this
  | @set d d1 p m _ hset ih =>
    obtain ⟨hu, hwf⟩ := ih
    obtain ⟨e, k, s, info1, hset2, hk, hbefore, hp, _, hcase⟩ :=
      DebugInfo_SetBreakPoint_spec d p m
    rw [hset] at hset2
    cases hset2
    have hinfo1 : info1.markers.Nodup ∧ info1.NoHoles := by
      rcases hcase with ⟨info, hs, he, hfound, hset1⟩ | ⟨_, _, hinfo1, _, _⟩
      · obtain ⟨hkk, _, _⟩ := (GetBreakPointInfo_loop_some_iff p _ k info).mp hfound
        obtain ⟨hnd, hnh⟩ := hwf info (List.getElem?_mem hkk)
        obtain ⟨_, h1, h2⟩ := SetBreakPoint_preserves info info1 m hset1
        exact ⟨h1 hnd, h2 hnh⟩
      · subst hinfo1
        simp [BreakPointInfo.markers, BreakPointInfo.NoHoles]
    constructor
    · apply UniquePositions_set _ k s info1 (UniquePositions_append_none _ e hu) hk
      intro j b hjk hj
      have hj2 := getElem?_append_replicate_none _ e j b hj
      rw [hp]
      rcases hcase with ⟨info, hs, he, hfound, _⟩ | ⟨_, hnone, _, _, _⟩
      · obtain ⟨hkk, hpinfo, _⟩ := (GetBreakPointInfo_loop_some_iff p _ k info).mp hfound
        intro hbp
        exact hjk (hu j k b info hj2 hkk (by rw [hbp, hpinfo]))
      · exact (GetBreakPointInfo_loop_none_iff p _).mp hnone b (List.getElem?_mem hj2)
    · intro info hin
      rcases List.mem_or_eq_of_mem_set hin with h1 | h1
      · exact hwf info (mem_append_replicate_none _ e info h1)
      · cases h1; exact hinfo1
  | @clear d d1 m result _ hclear ih =>
    obtain ⟨hu, hwf⟩ := ih
    cases hfind : DebugInfo.FindBreakPointInfo.loop m d.break_points 0 with
    | none =>
      rw [DebugInfo_ClearBreakPoint_none d m hfind] at hclear
      cases hclear
      exact ⟨hu, hwf⟩
    | some r =>
      obtain ⟨k, info⟩ := r
      obtain ⟨info1, hc1, hc2⟩ := DebugInfo_ClearBreakPoint_found d m k info hfind
      rw [hclear] at hc2
      cases hc2
      obtain ⟨hkk, hmem, _⟩ := (FindBreakPointInfo_loop_some_iff m _ k info).mp hfind
      obtain ⟨hpos, h1, h2⟩ := ClearBreakPoint_preserves info info1 m hmem hc1
      obtain ⟨hnd, hnh⟩ := hwf info (List.getElem?_mem hkk)
      constructor
      · apply UniquePositions_set _ k (some info) info1 hu hkk
        intro j b hjk hj hbp
        exact hjk (hu j k b info hj hkk (by rw [hbp, hpos]))
      · intro x hin
        rcases List.mem_or_eq_of_mem_set hin with h3 | h3
        · exact hwf x h3
        · cases h3; exact ⟨h1 hnd, h2 hnd hnh⟩

end Invariants

/-- C7: no duplicates. In every entry obtained from a new `BreakPointInfo` by
`BreakPointInfo::SetBreakPoint` calls, interleaved with `BreakPointInfo::ClearBreakPoint`
calls for break point objects the entry has, each break point object is held at most
once. -/
theorem Built_no_duplicates {M : Type} [DecidableEq M] (info : BreakPointInfo M)
    (h : BreakPointInfo.Built info) :
    info.markers.Nodup ∧ ∀ m, info.markers.count m ≤ 1 := by
  have hnd := Built_nodup info h
  exact ⟨hnd, fun m => List.nodup_iff_count_le_one.mp hnd m⟩

/-- Witness for C7: the entry built by adding 1, adding 2, adding 1 again and clearing
1. -/
theorem Built_no_duplicates_witness :
    BreakPointInfo.Built (BreakPointInfo.mk 10 (BreakPointObjects.array [some (2 : Nat)])) ∧
      (BreakPointInfo.mk 10 (BreakPointObjects.array [some (2 : Nat)])).markers.Nodup ∧
      ∀ m, (BreakPointInfo.mk 10 (BreakPointObjects.array [some (2 : Nat)])).markers.count m
        ≤ 1 :=
  have hb : BreakPointInfo.Built
      (BreakPointInfo.mk 10 (BreakPointObjects.array [some (2 : Nat)])) :=
    BreakPointInfo.Built.clear 1
      (BreakPointInfo.Built.set 1
        (BreakPointInfo.Built.set 2
          (BreakPointInfo.Built.set 1 (BreakPointInfo.Built.fresh 10)
            (show _ = some (BreakPointInfo.mk 10 (BreakPointObjects.single 1)) by decide))
          (show _ = some (BreakPointInfo.mk 10 (BreakPointObjects.array [some 1, some 2]))
            by decide))
        (show _ = some (BreakPointInfo.mk 10 (BreakPointObjects.array [some 1, some 2]))
          by decide))
      (by decide) (by decide)
  ⟨hb, Built_no_duplicates _ hb⟩

/-- C8: unique positions. In every table reachable from a table of empty slots by
`DebugInfo::SetBreakPoint` and `DebugInfo::ClearBreakPoint` calls, two different occupied
slots hold entries with different source positions. -/
theorem Reachable_unique_positions {M : Type} [DecidableEq M] (d : DebugInfo M)
    (h : DebugInfo.Reachable d) (i j : Nat) (a b : BreakPointInfo M) (hij : i ≠ j)
    (hi : d.break_points[i]? = some (some a)) (hj : d.break_points[j]? = some (some b)) :
    a.source_position ≠ b.source_position :=
  fun hab => hij ((Reachable_invariant d h).1 i j a b hi hj hab)

/-- Witness for C8: the table reached by `SetBreakPoint(10, 1)` and `SetBreakPoint(11, 1)`
from four empty slots, at its slots 0 and 1. -/
theorem Reachable_unique_positions_witness :
    DebugInfo.Reachable
        (DebugInfo.mk [some (BreakPointInfo.mk 10 (BreakPointObjects.single (1 : Nat))),
          some (BreakPointInfo.mk 11 (BreakPointObjects.single 1)), none, none]) ∧
      (BreakPointInfo.mk 10 (BreakPointObjects.single (1 : Nat))).source_position ≠
        (BreakPointInfo.mk 11 (BreakPointObjects.single (1 : Nat))).source_position :=
  have hr : DebugInfo.Reachable
      (DebugInfo.mk [some (BreakPointInfo.mk 10 (BreakPointObjects.single (1 : Nat))),
        some (BreakPointInfo.mk 11 (BreakPointObjects.single 1)), none, none]) :=
    DebugInfo.Reachable.set 11 1
      (DebugInfo.Reachable.set 10 1 (DebugInfo.Reachable.empty 4)
        (show _ = some (DebugInfo.mk
            [some (BreakPointInfo.mk 10 (BreakPointObjects.single 1)), none, none, none])
          by decide))
      (by decide)
  ⟨hr, Reachable_unique_positions _ hr 0 1 _ _ (by decide) (by decide) (by decide)⟩

/-! ## Counting -/

section Counting

theorem mem_pairs {M : Type} (l : List (Option (BreakPointInfo M))) (p : Int) (m : M) :
    (p, m) ∈ DebugInfo.pairs l ↔
      ∃ info, some info ∈ l ∧ info.source_position = p ∧ m ∈ info.markers := by
  induction l with
  | nil => simp [DebugInfo.pairs]
  | cons x rest ih =>
    cases x with
    | none => simp [DebugInfo.pairs, ih]
    | some a =>
      simp only [DebugInfo.pairs, List.mem_append, List.mem_map, Prod.mk.injEq, ih,
        List.mem_cons, Option.some.injEq]
      constructor
      · rintro (⟨m1, hm1, hp, rfl⟩ | ⟨info, hin, hp, hm⟩)
        · exact ⟨a, Or.inl rfl, hp, hm1⟩
        · exact ⟨info, Or.inr hin, hp, hm⟩
      · rintro ⟨info, (rfl | hin), hp, hm⟩
        · exact Or.inl ⟨m, hm, hp, rfl⟩
        · exact Or.inr ⟨info, hin, hp, hm⟩

theorem GetBreakPointCount_loop_add {M : Type} (l : List (Option (BreakPointInfo M))) :
    ∀ count, DebugInfo.GetBreakPointCount.loop l count =
      count + DebugInfo.GetBreakPointCount.loop l 0 := by
  induction l with
  | nil => intro count; simp [DebugInfo.GetBreakPointCount.loop]
  | cons x rest ih =>
    intro count
    cases x with
    | none => simp only [DebugInfo.GetBreakPointCount.loop]; exact ih count
    | some a =>
      simp only [DebugInfo.GetBreakPointCount.loop]
      rw [ih (count + a.GetBreakPointCount), ih (0 + a.GetBreakPointCount)]
      omega

theorem count_eq_length_markers {M : Type} (info : BreakPointInfo M) (h : info.NoHoles) :
    info.GetBreakPointCount = info.markers.length := by
  obtain ⟨p, objs⟩ := info
  cases objs with
  | undefined => rfl
  | single y => rfl
  | array arr =>
    simp only [BreakPointInfo.NoHoles] at h
    simp only [BreakPointInfo.GetBreakPointCount, BreakPointInfo.markers]
    symm
    rw [List.reduceOption_length_eq_iff]
    intro x hx
    cases x with
    | none => exact absurd hx h
    | some y => rfl

theorem length_pairs {M : Type} (l : List (Option (BreakPointInfo M)))
    (h : ∀ info, some info ∈ l → info.NoHoles) :
    (DebugInfo.pairs l).length = DebugInfo.GetBreakPointCount.loop l 0 := by
  induction l with
  | nil => rfl
  | cons x rest ih =>
    have hrest : ∀ info, some info ∈ rest → info.NoHoles :=
      fun info hin => h info (List.mem_cons_of_mem _ hin)
    cases x with
    | none => simp only [DebugInfo.pairs, DebugInfo.GetBreakPointCount.loop]; exact ih hrest
    | some a =>
      simp only [DebugInfo.pairs, DebugInfo.GetBreakPointCount.loop, List.length_append,
        List.length_map]
      rw [GetBreakPointCount_loop_add rest (0 + a.GetBreakPointCount), ih hrest,
        count_eq_length_markers a (h a (List.mem_cons_self _ _))]
      omega

theorem UniquePositions_tail {M : Type} (x : Option (BreakPointInfo M))
    (rest : List (Option (BreakPointInfo M))) (h : DebugInfo.UniquePositions (x :: rest)) :
    DebugInfo.UniquePositions rest := by
  intro i j a b hi hj hab
  have := h (i + 1) (j + 1) a b (by simpa using hi) (by simpa using hj) hab
  omega

theorem UniquePositions_head {M : Type} (a : BreakPointInfo M)
    (rest : List (Option (BreakPointInfo M)))
    (h : DebugInfo.UniquePositions (some a :: rest)) (b : BreakPointInfo M)
    (hb : some b ∈ rest) : a.source_position ≠ b.source_position := by
  intro hab
  obtain ⟨j, hj⟩ := List.mem_iff_getElem?.mp hb
  have := h 0 (j + 1) a b (by simp) (by simpa using hj) hab
  omega

theorem nodup_pairs {M : Type} (l : List (Option (BreakPointInfo M)))
    (hu : DebugInfo.UniquePositions l)
    (h : ∀ info, some info ∈ l → info.markers.Nodup) : (DebugInfo.pairs l).Nodup := by
  induction l with
  | nil => simp [DebugInfo.pairs]
  | cons x rest ih =>
    have hrest : ∀ info, some info ∈ rest → info.markers.Nodup :=
      fun info hin => h info (List.mem_cons_of_mem _ hin)
    have ihr := ih (UniquePositions_tail x rest hu) hrest
    cases x with
    | none => simpa only [DebugInfo.pairs] using ihr
    | some a =>
      simp only [DebugInfo.pairs]
      apply List.Nodup.append _ ihr
      · intro pm h1 h2
        obtain ⟨p, m⟩ := pm
        simp only [List.mem_map, Prod.mk.injEq] at h1
        obtain ⟨m1, _, hp, _⟩ := h1
        obtain ⟨b, hb, hbp, _⟩ := (mem_pairs rest p m).mp h2
        exact UniquePositions_head a rest hu b hb (by rw [hp, hbp])
      · apply List.Nodup.map _ (h a (List.mem_cons_self _ _))
        intro m1 m2 he
        simpa using he

theorem registered_iff {M : Type} [DecidableEq M] (d : DebugInfo M)
    (hu : DebugInfo.UniquePositions d.break_points) (p : Int) (m : M) :
    (∃ info, some info ∈ d.break_points ∧ info.source_position = p ∧ m ∈ info.markers) ↔
      ∃ info, d.GetBreakPointInfo p = some info ∧ info.HasBreakPointObject m = true := by
  constructor
  · rintro ⟨info, hin, hp, hm⟩
    cases hloop : DebugInfo.GetBreakPointInfo.loop p d.break_points 0 with
    | none =>
      exact absurd hp ((GetBreakPointInfo_loop_none_iff p _).mp hloop info hin)
    | some r =>
      obtain ⟨k, info1⟩ := r
      obtain ⟨hk, hp1, _⟩ := (GetBreakPointInfo_loop_some_iff p _ k info1).mp hloop
      obtain ⟨j, hj⟩ := List.mem_iff_getElem?.mp hin
      have hjk := hu j k info info1 hj hk (by rw [hp, hp1])
      subst hjk
      rw [hj] at hk
      cases hk
      exact ⟨info, by simp [DebugInfo.GetBreakPointInfo, hloop],
        (HasBreakPointObject_iff_mem info m).mpr hm⟩
  · rintro ⟨info, hget, hhas⟩
    cases hloop : DebugInfo.GetBreakPointInfo.loop p d.break_points 0 with
    | none => simp [DebugInfo.GetBreakPointInfo, hloop] at hget
    | some r =>
      obtain ⟨k, info1⟩ := r
      obtain ⟨hk, hp1, _⟩ := (GetBreakPointInfo_loop_some_iff p _ k info1).mp hloop
      simp only [DebugInfo.GetBreakPointInfo, hloop, Option.map_some',
        Option.some.injEq] at hget
      subst hget
      exact ⟨info1, List.getElem?_mem hk, hp1, (HasBreakPointObject_iff_mem info1 m).mp hhas⟩

end Counting

/-- C4: count consistency. For every table reachable from a table of empty slots by
`DebugInfo::SetBreakPoint` and `DebugInfo::ClearBreakPoint` calls,
`DebugInfo::GetBreakPointCount()` is the number of distinct pairs `(p, m)` such that
`GetBreakPointInfo(p)` returns an entry that has the break point object `m`. -/
theorem GetBreakPointCount_eq_card {M : Type} [DecidableEq M] (d : DebugInfo M)
    (h : DebugInfo.Reachable d) :
    ∃ S : Finset (Int × M),
      (∀ p m, (p, m) ∈ S ↔
        ∃ info, d.GetBreakPointInfo p = some info ∧ info.HasBreakPointObject m = true) ∧
      d.GetBreakPointCount = S.card := by
  obtain ⟨hu, hwf⟩ := Reachable_invariant d h
  refine ⟨(DebugInfo.pairs d.break_points).toFinset, ?_, ?_⟩
  · intro p m
    rw [List.mem_toFinset, mem_pairs, registered_iff d hu]
  · rw [List.toFinset_card_of_nodup (nodup_pairs _ hu (fun info hin => (hwf info hin).1))]
    rw [length_pairs _ (fun info hin => (hwf info hin).2)]
    rfl

/-- Witness for C4: the table reached by `SetBreakPoint(10, 1)`, `SetBreakPoint(10, 2)`
and `SetBreakPoint(11, 1)` from four empty slots. -/
theorem GetBreakPointCount_eq_card_witness :
    DebugInfo.Reachable
        (DebugInfo.mk [some (BreakPointInfo.mk 10
            (BreakPointObjects.array [some (1 : Nat), some 2])),
          some (BreakPointInfo.mk 11 (BreakPointObjects.single 1)), none, none]) ∧
      ∃ S : Finset (Int × Nat),
        (∀ p m, (p, m) ∈ S ↔
          ∃ info, DebugInfo.GetBreakPointInfo
              (DebugInfo.mk [some (BreakPointInfo.mk 10
                  (BreakPointObjects.array [some (1 : Nat), some 2])),
                some (BreakPointInfo.mk 11 (BreakPointObjects.single 1)), none, none]) p =
              some info ∧ info.HasBreakPointObject m = true) ∧
        DebugInfo.GetBreakPointCount
            (DebugInfo.mk [some (BreakPointInfo.mk 10
                (BreakPointObjects.array [some (1 : Nat), some 2])),
              some (BreakPointInfo.mk 11 (BreakPointObjects.single 1)), none, none]) =
          S.card :=
  have hr : DebugInfo.Reachable
      (DebugInfo.mk [some (BreakPointInfo.mk 10
          (BreakPointObjects.array [some (1 : Nat), some 2])),
        some (BreakPointInfo.mk 11 (BreakPointObjects.single 1)), none, none]) :=
    DebugInfo.Reachable.set 11 1
      (DebugInfo.Reachable.set 10 2
        (DebugInfo.Reachable.set 10 1 (DebugInfo.Reachable.empty 4)
          (show _ = some (DebugInfo.mk
              [some (BreakPointInfo.mk 10 (BreakPointObjects.single 1)), none, none, none])
            by decide))
        (show _ = some (DebugInfo.mk
            [some (BreakPointInfo.mk 10 (BreakPointObjects.array [some 1, some 2])),
              none, none, none])
          by decide))
      (by decide)
  ⟨hr, GetBreakPointCount_eq_card _ hr⟩

/-- C9: the case table of `BreakPointInfo::SetBreakPoint`. An entry without break point
object takes `m` as its single object; an entry whose single object is `m` is unchanged;
an entry with another single object `x` gets the array `[x, m]`; an entry with an array is
unchanged when a slot holds `m`, and otherwise gets the array extended by `m`, one slot
longer. Adding two different objects `A` then `B` to a new entry yields an entry that has
exactly `A` and `B`, with count 2. -/
theorem SetBreakPoint_case_table {M : Type} [DecidableEq M] (p : Int) (m x : M)
    (seq : FixedArray M) (A B : M) (hAB : A ≠ B) :
    BreakPointInfo.SetBreakPoint (BreakPointInfo.mk p BreakPointObjects.undefined) m =
        some (BreakPointInfo.mk p (BreakPointObjects.single m)) ∧
      BreakPointInfo.SetBreakPoint (BreakPointInfo.mk p (BreakPointObjects.single m)) m =
        some (BreakPointInfo.mk p (BreakPointObjects.single m)) ∧
      (x ≠ m →
        BreakPointInfo.SetBreakPoint (BreakPointInfo.mk p (BreakPointObjects.single x)) m =
          some (BreakPointInfo.mk p (BreakPointObjects.array [some x, some m]))) ∧
      (some m ∈ seq →
        BreakPointInfo.SetBreakPoint (BreakPointInfo.mk p (BreakPointObjects.array seq)) m =
          some (BreakPointInfo.mk p (BreakPointObjects.array seq))) ∧
      (some m ∉ seq →
        BreakPointInfo.SetBreakPoint (BreakPointInfo.mk p (BreakPointObjects.array seq)) m =
            some (BreakPointInfo.mk p (BreakPointObjects.array (seq ++ [some m]))) ∧
          (seq ++ [some m]).length = seq.length + 1) ∧
      ∃ e1 e2, BreakPointInfo.SetBreakPoint (NewBreakPointInfo p) A = some e1 ∧
        e1.SetBreakPoint B = some e2 ∧ e2.GetBreakPointCount = 2 ∧
        ∀ y, e2.HasBreakPointObject y = true ↔ y = A ∨ y = B := by
  refine ⟨rfl, ?_, ?_, ?_, ?_, ?_⟩
  · rw [SetBreakPoint_single_eq]; simp
  · intro hx; rw [SetBreakPoint_single_eq]; simp [hx]
  · intro hmem; rw [SetBreakPoint_array_eq]; simp [hmem]
  · intro hmem; rw [SetBreakPoint_array_eq]; simp [hmem]
  · refine ⟨BreakPointInfo.mk p (BreakPointObjects.single A),
      BreakPointInfo.mk p (BreakPointObjects.array [some A, some B]), rfl, ?_, rfl, ?_⟩
    · rw [SetBreakPoint_single_eq]; simp [hAB]
    · intro y
      rw [HasBreakPointObject_array]
      simp

/-- Witness for C9: position 10, `m = 2`, `x = 1`, the arrays `[1, 2]` and `[1, 3]`, and
the objects `A = 1`, `B = 2`. -/
theorem SetBreakPoint_case_table_witness :
    (1 : Nat) ≠ 2 ∧
      BreakPointInfo.SetBreakPoint
          (BreakPointInfo.mk 10 (BreakPointObjects.single (1 : Nat))) 2 =
        some (BreakPointInfo.mk 10 (BreakPointObjects.array [some 1, some 2])) ∧
      BreakPointInfo.SetBreakPoint
          (BreakPointInfo.mk 10 (BreakPointObjects.array [some (1 : Nat), some 2])) 2 =
        some (BreakPointInfo.mk 10 (BreakPointObjects.array [some 1, some 2])) ∧
      BreakPointInfo.SetBreakPoint
          (BreakPointInfo.mk 10 (BreakPointObjects.array [some (1 : Nat), some 3])) 2 =
        some (BreakPointInfo.mk 10 (BreakPointObjects.array ([some 1, some 3] ++ [some 2]))) :=
  ⟨by decide,
   (SetBreakPoint_case_table 10 2 1 [some 1, some 2] 1 2 (by decide)).2.2.1 (by decide),
   (SetBreakPoint_case_table 10 2 1 [some 1, some 2] 1 2 (by decide)).2.2.2.1 (by decide),
   ((SetBreakPoint_case_table 10 2 1 [some 1, some 3] 1 2 (by decide)).2.2.2.2.1
     (by decide)).1⟩

/-- C10: for every entry that holds no break point object twice and has `m`,
`BreakPointInfo::ClearBreakPoint` returns; the entry keeps its position, no longer has
`m`, has every other object exactly as before, and its count is one less. An array is
replaced by the array with the slot holding `m` erased (the other slots in their order);
a single object is replaced by `undefined`. Adding two different objects `A` then `B` to
a new entry and clearing `A` yields an entry that has `B` only, with count 1. -/
theorem ClearBreakPoint_removes {M : Type} [DecidableEq M] (info : BreakPointInfo M) (m : M)
    (hnd : info.markers.Nodup) (hm : info.HasBreakPointObject m = true) (p : Int) (A B : M)
    (hAB : A ≠ B) :
    (∃ info1, info.ClearBreakPoint m = some info1 ∧
        info1.source_position = info.source_position ∧
        info1.break_point_objects =
          (match info.break_point_objects with
            | BreakPointObjects.undefined => BreakPointObjects.undefined
            | BreakPointObjects.single _ => BreakPointObjects.undefined
            | BreakPointObjects.array seq => BreakPointObjects.array (seq.erase (some m))) ∧
        info1.HasBreakPointObject m = false ∧
        (∀ y, y ≠ m → info1.HasBreakPointObject y = info.HasBreakPointObject y) ∧
        info1.GetBreakPointCount + 1 = info.GetBreakPointCount) ∧
      ∃ e1 e2 e3, BreakPointInfo.SetBreakPoint (NewBreakPointInfo p) A = some e1 ∧
        e1.SetBreakPoint B = some e2 ∧ e2.ClearBreakPoint A = some e3 ∧
        e3.GetBreakPointCount = 1 ∧ ∀ y, e3.HasBreakPointObject y = true ↔ y = B := by
  constructor
  · have hmem := (HasBreakPointObject_iff_mem info m).mp hm
    obtain ⟨info1, hclear, hpos, hmark, hcount, _⟩ := ClearBreakPoint_spec info m hmem
    refine ⟨info1, hclear, hpos, ?_, ?_, ?_, hcount⟩
    · obtain ⟨q, objs⟩ := info
      cases objs with
      | undefined => simp [BreakPointInfo.markers] at hmem
      | single y =>
        have hy : y = m := by simpa [BreakPointInfo.markers, eq_comm] using hmem
        rw [ClearBreakPoint_single_eq] at hclear
        cases hclear
        simp [hy]
      | array arr =>
        have hin : some m ∈ arr := by
          simpa [BreakPointInfo.markers, List.reduceOption_mem_iff] using hmem
        have hone : (arr.filter (fun y => decide (y = some m))).length ≤ 1 := by
          rw [length_filter_eq_reduceOption]
          exact length_filter_eq_le_one m _ hnd
        have hzero : (arr.filter (fun y => decide (y = some m))).length - 1 = 0 := by omega
        rw [ClearBreakPoint_array_eq] at hclear
        simp only [hin, if_true, hzero, List.replicate_zero, List.append_nil,
          filter_ne_eq_erase (some m) arr hone] at hclear
        cases hclear
        rfl
    · rw [HasBreakPointObject_eq_false_iff, hmark]
      simp
    · intro y hy
      rw [Bool.eq_iff_iff, HasBreakPointObject_iff_mem, HasBreakPointObject_iff_mem, hmark]
      simp [hy]
  · refine ⟨BreakPointInfo.mk p (BreakPointObjects.single A),
      BreakPointInfo.mk p (BreakPointObjects.array [some A, some B]),
      BreakPointInfo.mk p (BreakPointObjects.array [some B]), rfl, ?_, ?_, rfl, ?_⟩
    · rw [SetBreakPoint_single_eq]; simp [hAB]
    · have hBA : ¬ B = A := fun e => hAB e.symm
      rw [ClearBreakPoint_array_eq]; simp [hBA]
    · intro y
      rw [HasBreakPointObject_array]
      simp

/-- Witness for C10: the entry with the array `[1, 2, 3]` cleared for 2, and the objects
`A = 1`, `B = 2`. -/
theorem ClearBreakPoint_removes_witness :
    (BreakPointInfo.mk 10
        (BreakPointObjects.array [some (1 : Nat), some 2, some 3])).markers.Nodup ∧
      ∃ info1, BreakPointInfo.ClearBreakPoint
          (BreakPointInfo.mk 10 (BreakPointObjects.array [some (1 : Nat), some 2, some 3]))
          2 = some info1 ∧
        info1.break_point_objects = BreakPointObjects.array [some 1, some 3] ∧
        info1.GetBreakPointCount + 1 = 3 :=
  have hnd : (BreakPointInfo.mk 10
      (BreakPointObjects.array [some (1 : Nat), some 2, some 3])).markers.Nodup := by decide
  ⟨hnd,
    match (ClearBreakPoint_removes
      (BreakPointInfo.mk 10 (BreakPointObjects.array [some (1 : Nat), some 2, some 3])) 2
      hnd (by decide) 10 1 2 (by decide)).1 with
    | ⟨info1, h1, _, h3, _, _, h6⟩ => ⟨info1, h1, h3, h6⟩⟩

/-- C11 fails on the code for an entry with an array: the entry at position 10 with the
array `[1, 2]` does not have the break point object 3, and `BreakPointInfo::ClearBreakPoint`
for 3 does not complete: the new array has one slot, slot 0 takes the object 1, and the
write of the object 2 goes to index 1, outside the array. For an empty array the
allocation itself has the length -1. -/
theorem ClearBreakPoint_absent_in_array_faults :
    BreakPointInfo.HasBreakPointObject
        (BreakPointInfo.mk 10 (BreakPointObjects.array [some (1 : Nat), some 2])) 3 = false ∧
      (NewFixedArray (((([some 1, some 2] : FixedArray Nat)).length : Int) - 1) :
          Option (FixedArray Nat)) = some [none] ∧
      FixedArray.set ([none] : FixedArray Nat) (0 - 0) (some 1) = some [some 1] ∧
      FixedArray.set ([some 1] : FixedArray Nat) (1 - 0) (some 2) = none ∧
      BreakPointInfo.ClearBreakPoint
        (BreakPointInfo.mk 10 (BreakPointObjects.array [some (1 : Nat), some 2])) 3 = none ∧
      BreakPointInfo.ClearBreakPoint
        (BreakPointInfo.mk 10 (BreakPointObjects.array ([] : FixedArray Nat))) 3 = none := by
  decide

/-- C12 fails on the code for `BreakPointInfo::ClearBreakPoint` with an object the entries
do not have: the entries with the single object 1 and with the array `[1]` are both built
by the operations, hold the same objects, each once, and agree on `HasBreakPointObject`
and `GetBreakPointCount`; clearing the object 2 leaves the first unchanged and does not
complete on the second (a write to index 0 of an array without slots). -/
theorem ClearBreakPoint_depends_on_representation :
    BreakPointInfo.Built (BreakPointInfo.mk 10 (BreakPointObjects.single (1 : Nat))) ∧
      BreakPointInfo.Built (BreakPointInfo.mk 10 (BreakPointObjects.array [some (1 : Nat)])) ∧
      (BreakPointInfo.mk 10 (BreakPointObjects.single (1 : Nat))).markers = [1] ∧
      (BreakPointInfo.mk 10 (BreakPointObjects.array [some (1 : Nat)])).markers = [1] ∧
      BreakPointInfo.HasBreakPointObject
        (BreakPointInfo.mk 10 (BreakPointObjects.single (1 : Nat))) 2 = false ∧
      BreakPointInfo.HasBreakPointObject
        (BreakPointInfo.mk 10 (BreakPointObjects.array [some (1 : Nat)])) 2 = false ∧
      BreakPointInfo.GetBreakPointCount
          (BreakPointInfo.mk 10 (BreakPointObjects.single (1 : Nat))) =
        BreakPointInfo.GetBreakPointCount
          (BreakPointInfo.mk 10 (BreakPointObjects.array [some (1 : Nat)])) ∧
      BreakPointInfo.ClearBreakPoint
          (BreakPointInfo.mk 10 (BreakPointObjects.single (1 : Nat))) 2 =
        some (BreakPointInfo.mk 10 (BreakPointObjects.single 1)) ∧
      BreakPointInfo.ClearBreakPoint
        (BreakPointInfo.mk 10 (BreakPointObjects.array [some (1 : Nat)])) 2 = none := by
  have h1 : BreakPointInfo.Built (BreakPointInfo.mk 10 (BreakPointObjects.single (1 : Nat))) :=
    BreakPointInfo.Built.set 1 (BreakPointInfo.Built.fresh 10) (by decide)
  have h2 : BreakPointInfo.Built
      (BreakPointInfo.mk 10 (BreakPointObjects.array [some (1 : Nat), some 2])) :=
    BreakPointInfo.Built.set 2 h1 (by decide)
  have h3 : BreakPointInfo.Built
      (BreakPointInfo.mk 10 (BreakPointObjects.array [some (1 : Nat)])) :=
    BreakPointInfo.Built.clear 2 h2 (by decide) (by decide)
  exact ⟨h1, h3, by decide, by decide, by decide, by decide, by decide, by decide, by decide⟩

/-- C14: `DebugInfo::FindBreakPointInfo` returns an entry exactly when that entry sits in
an occupied slot, has the break point object, and no entry in a slot before it has the
object; it returns `undefined` exactly when no entry in an occupied slot has the
object. -/
theorem FindBreakPointInfo_first {M : Type} [DecidableEq M] (d : DebugInfo M) (m : M) :
    (∀ info, d.FindBreakPointInfo m = some info ↔
        ∃ k : Nat, d.break_points[k]? = some (some info) ∧
          info.HasBreakPointObject m = true ∧
          ∀ j : Nat, j < k → ∀ b : BreakPointInfo M, d.break_points[j]? = some (some b) →
            b.HasBreakPointObject m = false) ∧
      (d.FindBreakPointInfo m = none ↔
        ∀ b : BreakPointInfo M, some b ∈ d.break_points →
          b.HasBreakPointObject m = false) := by
  constructor
  · intro info
    constructor
    · intro h
      cases hloop : DebugInfo.FindBreakPointInfo.loop m d.break_points 0 with
      | none => simp [DebugInfo.FindBreakPointInfo, hloop] at h
      | some r =>
        obtain ⟨k, info1⟩ := r
        simp only [DebugInfo.FindBreakPointInfo, hloop, Option.map_some',
          Option.some.injEq] at h
        subst h
        obtain ⟨hk, hmem, hbefore⟩ := (FindBreakPointInfo_loop_some_iff m _ k info1).mp hloop
        exact ⟨k, hk, (HasBreakPointObject_iff_mem info1 m).mpr hmem, fun j hj b hb =>
          (HasBreakPointObject_eq_false_iff b m).mpr (hbefore j hj b hb)⟩
    · rintro ⟨k, hk, hhas, hbefore⟩
      have hloop := (FindBreakPointInfo_loop_some_iff m d.break_points k info).mpr
        ⟨hk, (HasBreakPointObject_iff_mem info m).mp hhas, fun j hj b hb =>
          (HasBreakPointObject_eq_false_iff b m).mp (hbefore j hj b hb)⟩
      simp [DebugInfo.FindBreakPointInfo, hloop]
  · simp only [DebugInfo.FindBreakPointInfo, Option.map_eq_none',
      FindBreakPointInfo_loop_none_iff]
    constructor
    · intro h b hb; exact (HasBreakPointObject_eq_false_iff b m).mpr (h b hb)
    · intro h b hb; exact (HasBreakPointObject_eq_false_iff b m).mp (h b hb)

/-- C16: placement in the first empty slot. For every table whose lowest-indexed empty
slot is `k` and every position `p` that has no entry, `DebugInfo::SetBreakPoint(p, m)`
returns the table in which slot `k` holds a new entry with position `p` and the single
object `m`; the length and all other slots are unchanged. -/
theorem SetBreakPoint_first_empty_slot {M : Type} [DecidableEq M] (d : DebugInfo M) (p : Int)
    (m : M) (k : Nat) (hp : d.GetBreakPointInfo p = none)
    (hk : d.break_points[k]? = some none)
    (hfirst : ∀ j, j < k → d.break_points[j]? ≠ some none) :
    ∃ d1, d.SetBreakPoint p m = some d1 ∧
      d1.break_points.length = d.break_points.length ∧
      d1.break_points[k]? = some (some (BreakPointInfo.mk p (BreakPointObjects.single m))) ∧
      (∀ j, j ≠ k → d1.break_points[j]? = d.break_points[j]?) ∧
      d1.break_points =
        List.set d.break_points k (some (BreakPointInfo.mk p (BreakPointObjects.single m))) := by
  have hnone : DebugInfo.GetBreakPointInfo.loop p d.break_points 0 = none := by
    simpa [DebugInfo.GetBreakPointInfo] using hp
  obtain ⟨e, k1, he, hk1, hfree, hset⟩ := DebugInfo_SetBreakPoint_new d p m hnone
  have he0 : e = 0 := by
    rcases he with h0 | ⟨_, hno, _⟩
    · exact h0
    · exact absurd (List.getElem?_mem hk) hno
  subst he0
  simp only [List.replicate_zero, List.append_nil] at hk1 hfree hset
  have hkk : k1 = k := by
    rcases Nat.lt_trichotomy k1 k with h | h | h
    · exact absurd hk1 (hfirst k1 h)
    · exact h
    · exact absurd hk (hfree k h)
  subst hkk
  refine ⟨_, hset, by simp, getElem?_set_same _ k1 _ none hk, ?_, rfl⟩
  intro j hj
  exact getElem?_set_other _ k1 j _ (fun e => hj e.symm)

/-- Witness for C16: the table with an entry for position 10 in slot 0 and three empty
slots, position 11 and the object 1; the lowest-indexed empty slot is slot 1. -/
theorem SetBreakPoint_first_empty_slot_witness :
    ∃ d1, DebugInfo.SetBreakPoint
        (DebugInfo.mk [some (BreakPointInfo.mk 10 (BreakPointObjects.single (1 : Nat))),
          none, none, none]) 11 1 = some d1 ∧
      d1.break_points.length = 4 ∧
      d1.break_points[1]? =
        some (some (BreakPointInfo.mk 11 (BreakPointObjects.single 1))) :=
  match SetBreakPoint_first_empty_slot
      (DebugInfo.mk [some (BreakPointInfo.mk 10 (BreakPointObjects.single (1 : Nat))),
        none, none, none]) 11 1 1 (by decide) (by decide)
      (by intro j hj; interval_cases j; decide) with
  | ⟨d1, h1, h2, h3, _, _⟩ => ⟨d1, h1, h2, h3⟩

/-! ## Growth of the table -/

theorem SetBreakPoint_full_eq {M : Type} [DecidableEq M] (d : DebugInfo M) (p : Int) (m : M)
    (hfull : none ∉ d.break_points)
    (hnone : DebugInfo.GetBreakPointInfo.loop p d.break_points 0 = none) :
    d.SetBreakPoint p m =
      some (DebugInfo.mk (d.break_points ++
        [some (BreakPointInfo.mk p (BreakPointObjects.single m)), none, none, none])) := by
  obtain ⟨e, k, he, hk, _, hset⟩ := DebugInfo_SetBreakPoint_new d p m hnone
  rcases he with h0 | ⟨h4, _, hlen⟩
  · subst h0
    simp only [List.replicate_zero, List.append_nil] at hk
    exact absurd (List.getElem?_mem hk) hfull
  · subst h4; subst hlen
    rw [hset]
    have hrep : List.replicate 4 (none : Option (BreakPointInfo M)) =
        none :: [none, none, none] := rfl
    rw [hrep, set_length_append]

theorem SetBreakPoint_free_eq {M : Type} [DecidableEq M] (d : DebugInfo M) (p : Int) (m : M)
    (k : Nat) (hnone : DebugInfo.GetBreakPointInfo.loop p d.break_points 0 = none)
    (hk : d.break_points[k]? = some none)
    (hfirst : ∀ j, j < k → d.break_points[j]? ≠ some none) :
    d.SetBreakPoint p m =
      some (DebugInfo.mk (List.set d.break_points k
        (some (BreakPointInfo.mk p (BreakPointObjects.single m))))) := by
  obtain ⟨e, k1, he, hk1, hfree, hset⟩ := DebugInfo_SetBreakPoint_new d p m hnone
  have he0 : e = 0 := by
    rcases he with h0 | ⟨_, hno, _⟩
    · exact h0
    · exact absurd (List.getElem?_mem hk) hno
  subst he0
  simp only [List.replicate_zero, List.append_nil] at hk1 hfree hset
  have hkk : k1 = k := by
    rcases Nat.lt_trichotomy k1 k with h | h | h
    · exact absurd hk1 (hfirst k1 h)
    · exact h
    · exact absurd hk (hfree k h)
  subst hkk
  exact hset

/-- C13: growth by a fixed increment. For every table of length `n` without empty slot and
every position `p` that has no entry, `DebugInfo::SetBreakPoint(p, m)` returns a table of
length `n + 4`: slots `0..n-1` are unchanged, slot `n` holds a new entry with position `p`
and the single object `m`, slots `n+1..n+3` are empty. Starting from four empty slots,
insertions at five different positions leave the length at 4 after each of the first four
and make it 8 at the fifth. -/
theorem SetBreakPoint_grows_by_four {M : Type} [DecidableEq M] (d : DebugInfo M) (p : Int)
    (m : M) (hfull : none ∉ d.break_points) (hp : d.GetBreakPointInfo p = none)
    (p1 p2 p3 p4 p5 : Int) (m1 m2 m3 m4 m5 : M) (hdistinct : [p1, p2, p3, p4, p5].Nodup) :
    (∃ d1, d.SetBreakPoint p m = some d1 ∧
        d1.break_points.length = d.break_points.length + 4 ∧
        (∀ j, j < d.break_points.length → d1.break_points[j]? = d.break_points[j]?) ∧
        d1.break_points[d.break_points.length]? =
          some (some (BreakPointInfo.mk p (BreakPointObjects.single m))) ∧
        d1.break_points[d.break_points.length + 1]? = some none ∧
        d1.break_points[d.break_points.length + 2]? = some none ∧
        d1.break_points[d.break_points.length + 3]? = some none) ∧
      ∃ t1 t2 t3 t4 t5,
        (DebugInfo.mk (List.replicate 4 none) : DebugInfo M).SetBreakPoint p1 m1 = some t1 ∧
        t1.SetBreakPoint p2 m2 = some t2 ∧ t2.SetBreakPoint p3 m3 = some t3 ∧
        t3.SetBreakPoint p4 m4 = some t4 ∧ t4.SetBreakPoint p5 m5 = some t5 ∧
        t1.break_points.length = 4 ∧ t2.break_points.length = 4 ∧
        t3.break_points.length = 4 ∧ t4.break_points.length = 4 ∧
        t5.break_points.length = 8 := by
  constructor
  · have hnone : DebugInfo.GetBreakPointInfo.loop p d.break_points 0 = none := by
      simpa [DebugInfo.GetBreakPointInfo] using hp
    refine ⟨_, SetBreakPoint_full_eq d p m hfull hnone, by simp, ?_, ?_, ?_, ?_, ?_⟩
    · intro j hj
      exact List.getElem?_append_left hj
    · rw [List.getElem?_append_right (le_refl _)]; simp
    · rw [List.getElem?_append_right (by omega)]; simp
    · rw [List.getElem?_append_right (by omega)]; simp
    · rw [List.getElem?_append_right (by omega)]; simp
  · simp only [List.nodup_cons, List.mem_cons, List.mem_singleton, not_or, List.not_mem_nil,
      not_false_eq_true, List.nodup_nil, and_true] at hdistinct
    obtain ⟨⟨h12, h13, h14, h15⟩, ⟨h23, h24, h25⟩, ⟨h34, h35⟩, h45⟩ := hdistinct
    have e1 := SetBreakPoint_free_eq (DebugInfo.mk (List.replicate 4 none)) p1 m1 0
      (by simp [DebugInfo.GetBreakPointInfo.loop, List.replicate]) (by simp)
      (by intro j hj; omega)
    have e2 := SetBreakPoint_free_eq
      (DebugInfo.mk [some (BreakPointInfo.mk p1 (BreakPointObjects.single m1)), none, none,
        none]) p2 m2 1
      (by simp [DebugInfo.GetBreakPointInfo.loop, h12]) (by simp)
      (by intro j hj; interval_cases j; simp)
    have e3 := SetBreakPoint_free_eq
      (DebugInfo.mk [some (BreakPointInfo.mk p1 (BreakPointObjects.single m1)),
        some (BreakPointInfo.mk p2 (BreakPointObjects.single m2)), none, none]) p3 m3 2
      (by simp [DebugInfo.GetBreakPointInfo.loop, h13, h23]) (by simp)
      (by intro j hj; interval_cases j <;> simp)
    have e4 := SetBreakPoint_free_eq
      (DebugInfo.mk [some (BreakPointInfo.mk p1 (BreakPointObjects.single m1)),
        some (BreakPointInfo.mk p2 (BreakPointObjects.single m2)),
        some (BreakPointInfo.mk p3 (BreakPointObjects.single m3)), none]) p4 m4 3
      (by simp [DebugInfo.GetBreakPointInfo.loop, h14, h24, h34]) (by simp)
      (by intro j hj; interval_cases j <;> simp)
    have e5 := SetBreakPoint_full_eq
      (DebugInfo.mk [some (BreakPointInfo.mk p1 (BreakPointObjects.single m1)),
        some (BreakPointInfo.mk p2 (BreakPointObjects.single m2)),
        some (BreakPointInfo.mk p3 (BreakPointObjects.single m3)),
        some (BreakPointInfo.mk p4 (BreakPointObjects.single m4))]) p5 m5
      (by simp) (by simp [DebugInfo.GetBreakPointInfo.loop, h15, h25, h35, h45])
    exact ⟨_, _, _, _, _, e1, e2, e3, e4, e5, rfl, rfl, rfl, rfl, rfl⟩

/-- Witness for C13: a table of one occupied slot, and the positions 1 to 5. -/
theorem SetBreakPoint_grows_by_four_witness :
    (∃ d1, DebugInfo.SetBreakPoint
          (DebugInfo.mk [some (BreakPointInfo.mk 10 (BreakPointObjects.single (1 : Nat)))])
          11 2 = some d1 ∧
        d1.break_points =
          [some (BreakPointInfo.mk 10 (BreakPointObjects.single 1)),
            some (BreakPointInfo.mk 11 (BreakPointObjects.single 2)), none, none, none]) ∧
      ∃ t1 t2 t3 t4 t5,
        (DebugInfo.mk (List.replicate 4 none) : DebugInfo Nat).SetBreakPoint 1 0 = some t1 ∧
        t1.SetBreakPoint 2 0 = some t2 ∧ t2.SetBreakPoint 3 0 = some t3 ∧
        t3.SetBreakPoint 4 0 = some t4 ∧ t4.SetBreakPoint 5 0 = some t5 ∧
        t1.break_points.length = 4 ∧ t2.break_points.length = 4 ∧
        t3.break_points.length = 4 ∧ t4.break_points.length = 4 ∧
        t5.break_points.length = 8 :=
  ⟨⟨_, by decide, rfl⟩,
    (SetBreakPoint_grows_by_four
      (DebugInfo.mk [some (BreakPointInfo.mk 10 (BreakPointObjects.single (1 : Nat)))]) 11 2
      (by decide) (by decide) 1 2 3 4 5 0 0 0 0 0 (by decide)).2⟩

/-! ## Effect of the table operations on the slots -/

theorem occupied_after_set {M : Type} (l : List (Option (BreakPointInfo M))) (k : Nat)
    (s : Option (BreakPointInfo M)) (info1 : BreakPointInfo M) (hk : l[k]? = some s)
    (hpos : ∀ info, s = some info → info1.source_position = info.source_position)
    (j : Nat) (a : BreakPointInfo M) (hj : l[j]? = some (some a)) :
    ∃ a1, (List.set l k (some info1))[j]? = some (some a1) ∧
      a1.source_position = a.source_position := by
  by_cases hjk : k = j
  · subst hjk
    rw [hj] at hk
    cases hk
    exact ⟨info1, getElem?_set_same l k _ _ hj, hpos a rfl⟩
  · exact ⟨a, by rw [getElem?_set_other l k j _ hjk, hj], rfl⟩

/-- C17: `DebugInfo::ClearBreakPoint` returns, and one of two cases holds. Either
`DebugInfo::FindBreakPointInfo` finds nothing, no entry has the break point object, the
result is false and the table is unchanged. Or `FindBreakPointInfo` finds the entry of
slot `k`, the lowest-indexed slot whose entry has the object, the result is true, and the
table differs in slot `k` only, where the entry is replaced by the result of
`BreakPointInfo::ClearBreakPoint`: same position, the object removed, every other object
as before. -/
theorem ClearBreakPoint_first_entry_only {M : Type} [DecidableEq M] (d : DebugInfo M)
    (m : M) :
    (d.FindBreakPointInfo m = none ∧ d.ClearBreakPoint m = some (d, false) ∧
        ∀ b : BreakPointInfo M, some b ∈ d.break_points →
          b.HasBreakPointObject m = false) ∨
      ∃ (k : Nat) (info info1 : BreakPointInfo M),
        d.FindBreakPointInfo m = some info ∧
        d.break_points[k]? = some (some info) ∧ info.HasBreakPointObject m = true ∧
        (∀ j : Nat, j < k → ∀ b : BreakPointInfo M, d.break_points[j]? = some (some b) →
          b.HasBreakPointObject m = false) ∧
        info.ClearBreakPoint m = some info1 ∧
        info1.source_position = info.source_position ∧
        info1.HasBreakPointObject m = false ∧
        (∀ y, y ≠ m → info1.HasBreakPointObject y = info.HasBreakPointObject y) ∧
        d.ClearBreakPoint m =
          some (DebugInfo.mk (List.set d.break_points k (some info1)), true) ∧
        (List.set d.break_points k (some info1))[k]? = some (some info1) ∧
        (List.set d.break_points k (some info1)).length = d.break_points.length ∧
        ∀ j : Nat, j ≠ k → (List.set d.break_points k (some info1))[j]? =
          d.break_points[j]? := by
  cases hloop : DebugInfo.FindBreakPointInfo.loop m d.break_points 0 with
  | none =>
    left
    refine ⟨by simp [DebugInfo.FindBreakPointInfo, hloop],
      DebugInfo_ClearBreakPoint_none d m hloop, ?_⟩
    intro b hb
    exact (HasBreakPointObject_eq_false_iff b m).mpr
      ((FindBreakPointInfo_loop_none_iff m _).mp hloop b hb)
  | some r =>
    right
    obtain ⟨k, info⟩ := r
    obtain ⟨hk, hmem, hbefore⟩ := (FindBreakPointInfo_loop_some_iff m _ k info).mp hloop
    obtain ⟨info1, hclear, hpos, hmark, _, _⟩ := ClearBreakPoint_spec info m hmem
    refine ⟨k, info, info1, by simp [DebugInfo.FindBreakPointInfo, hloop], hk,
      (HasBreakPointObject_iff_mem info m).mpr hmem, ?_, hclear, hpos, ?_, ?_, ?_,
      getElem?_set_same _ k _ _ hk, by simp, ?_⟩
    · intro j hj b hb
      exact (HasBreakPointObject_eq_false_iff b m).mpr (hbefore j hj b hb)
    · rw [HasBreakPointObject_eq_false_iff, hmark]; simp
    · intro y hy
      rw [Bool.eq_iff_iff, HasBreakPointObject_iff_mem, HasBreakPointObject_iff_mem, hmark]
      simp [hy]
    · simp only [DebugInfo.ClearBreakPoint, hloop, hclear]
    · intro j hj
      exact getElem?_set_other _ k j _ (fun e => hj e.symm)

/-- C15: the table never shrinks and never loses an entry. `DebugInfo::SetBreakPoint` and
`DebugInfo::ClearBreakPoint` return a table with at least as many slots, in which every
slot that held an entry holds an entry with the same source position. When the entry for
`p`, in slot `k`, has the break point object `m` as its only object and no entry in a slot
before `k` has `m`, so that `ClearBreakPoint(m)` clears the last object at `p`, then
afterwards `GetBreakPointInfo(p)` still returns an entry for `p`, with count 0. -/
theorem table_keeps_entries {M : Type} [DecidableEq M] (d : DebugInfo M) (p : Int) (m : M) :
    (∃ d1, d.SetBreakPoint p m = some d1 ∧
        d.break_points.length ≤ d1.break_points.length ∧
        ∀ (j : Nat) (a : BreakPointInfo M), d.break_points[j]? = some (some a) →
          ∃ a1, d1.break_points[j]? = some (some a1) ∧
            a1.source_position = a.source_position) ∧
      (∃ d1 result, d.ClearBreakPoint m = some (d1, result) ∧
        d.break_points.length ≤ d1.break_points.length ∧
        ∀ (j : Nat) (a : BreakPointInfo M), d.break_points[j]? = some (some a) →
          ∃ a1, d1.break_points[j]? = some (some a1) ∧
            a1.source_position = a.source_position) ∧
      ∀ (k : Nat) (info : BreakPointInfo M), d.break_points[k]? = some (some info) →
        info.source_position = p → info.HasBreakPointObject m = true →
        info.GetBreakPointCount = 1 →
        (∀ j : Nat, j < k → ∀ b : BreakPointInfo M, d.break_points[j]? = some (some b) →
          b.source_position ≠ p ∧ b.HasBreakPointObject m = false) →
        ∃ d1 info1, d.ClearBreakPoint m = some (d1, true) ∧
          d1.GetBreakPointInfo p = some info1 ∧ info1.source_position = p ∧
          info1.GetBreakPointCount = 0 := by
  refine ⟨?_, ?_, ?_⟩
  · obtain ⟨e, k, s, info1, hset, hk, _, hp, _, hcase⟩ := DebugInfo_SetBreakPoint_spec d p m
    refine ⟨_, hset, by simp, ?_⟩
    intro j a hj
    have hjlt : j < d.break_points.length := by
      by_contra hc
      rw [List.getElem?_eq_none (by omega)] at hj
      cases hj
    apply occupied_after_set _ k s info1 hk _ j a
      (by rw [List.getElem?_append_left hjlt]; exact hj)
    intro info hs
    rcases hcase with ⟨info0, hs0, _, hfound, _⟩ | ⟨hs0, _⟩
    · rw [hs0] at hs
      cases hs
      rw [hp, ((GetBreakPointInfo_loop_some_iff p _ k info).mp hfound).2.1]
    · rw [hs0] at hs; cases hs
  · cases hloop : DebugInfo.FindBreakPointInfo.loop m d.break_points 0 with
    | none =>
      exact ⟨d, false, DebugInfo_ClearBreakPoint_none d m hloop, le_refl _,
        fun j a hj => ⟨a, hj, rfl⟩⟩
    | some r =>
      obtain ⟨k, info⟩ := r
      obtain ⟨hk, hmem, _⟩ := (FindBreakPointInfo_loop_some_iff m _ k info).mp hloop
      obtain ⟨info1, hclear, hpos, _⟩ := ClearBreakPoint_spec info m hmem
      refine ⟨DebugInfo.mk (List.set d.break_points k (some info1)), true,
        by simp only [DebugInfo.ClearBreakPoint, hloop, hclear], by simp, ?_⟩
      intro j a hj
      apply occupied_after_set _ k (some info) info1 hk _ j a hj
      intro info0 hs
      cases hs
      exact hpos
  · intro k info0 hk hp hhas hcount hfirst
    have hbefore : ∀ j, j < k → ∀ b, d.break_points[j]? = some (some b) →
        b.source_position ≠ p := fun j hj b hb => (hfirst j hj b hb).1
    have hmem := (HasBreakPointObject_iff_mem info0 m).mp hhas
    have hfind : DebugInfo.FindBreakPointInfo.loop m d.break_points 0 =
        some (k, info0) := by
      rw [FindBreakPointInfo_loop_some_iff]
      exact ⟨hk, hmem, fun j hj b hb =>
        (HasBreakPointObject_eq_false_iff b m).mp (hfirst j hj b hb).2⟩
    obtain ⟨info1, hclear, hpos, _, hc, _⟩ := ClearBreakPoint_spec info0 m hmem
    have hloop1 := GetBreakPointInfo_loop_set p d.break_points k (some info0) info1 hk
      (by rw [hpos, hp]) hbefore
    refine ⟨DebugInfo.mk (List.set d.break_points k (some info1)), info1, ?_, ?_,
      by rw [hpos, hp], by omega⟩
    · simp only [DebugInfo.ClearBreakPoint, hfind, hclear]
    · simp only [DebugInfo.GetBreakPointInfo, hloop1, Option.map_some']

/-- Witness for C15: the table with the entry for position 10 holding the single object
1, cleared for that object. -/
theorem table_keeps_entries_witness :
    ∃ d1 info1, DebugInfo.ClearBreakPoint
        (DebugInfo.mk [some (BreakPointInfo.mk 10 (BreakPointObjects.single (1 : Nat))),
          none, none, none]) 1 = some (d1, true) ∧
      d1.GetBreakPointInfo 10 = some info1 ∧ info1.source_position = 10 ∧
      info1.GetBreakPointCount = 0 :=
  (table_keeps_entries
    (DebugInfo.mk [some (BreakPointInfo.mk 10 (BreakPointObjects.single (1 : Nat))),
      none, none, none]) 10 1).2.2 0
    (BreakPointInfo.mk 10 (BreakPointObjects.single 1)) (by decide) (by decide) (by decide)
    (by decide) (by intro j hj; omega)

/-! ## Occupied slots form a prefix -/

theorem getElem?_lt_of_eq_some {α : Type} (l : List α) (k : Nat) (v : α)
    (h : l[k]? = some v) : k < l.length := by
  by_contra hc
  rw [List.getElem?_eq_none (by omega)] at h
  cases h

theorem OccupiedPrefix_set_occupied {M : Type} (l : List (Option (BreakPointInfo M)))
    (k : Nat) (info info1 : BreakPointInfo M) (hpre : DebugInfo.OccupiedPrefix l)
    (hk : l[k]? = some (some info)) :
    DebugInfo.OccupiedPrefix (List.set l k (some info1)) := by
  intro i j a hij hj
  have hjocc : ∃ a0, l[j]? = some (some a0) := by
    by_cases hjk : k = j
    · subst hjk; exact ⟨info, hk⟩
    · rw [getElem?_set_other l k j _ hjk] at hj; exact ⟨a, hj⟩
  obtain ⟨a0, ha0⟩ := hjocc
  obtain ⟨b, hb⟩ := hpre i j a0 hij ha0
  by_cases hik : k = i
  · subst hik; exact ⟨info1, getElem?_set_same l k _ _ hk⟩
  · exact ⟨b, by rw [getElem?_set_other l k i _ hik, hb]⟩

theorem OccupiedPrefix_append_none {M : Type} (l : List (Option (BreakPointInfo M)))
    (e : Nat) (hpre : DebugInfo.OccupiedPrefix l) :
    DebugInfo.OccupiedPrefix (l ++ List.replicate e none) := by
  intro i j a hij hj
  have hj2 := getElem?_append_replicate_none l e j a hj
  obtain ⟨b, hb⟩ := hpre i j a hij hj2
  have hilt := getElem?_lt_of_eq_some l i _ hb
  exact ⟨b, by rw [List.getElem?_append_left hilt, hb]⟩

theorem occupied_of_ne_none {M : Type} (l : List (Option (BreakPointInfo M))) (i k : Nat)
    (s : Option (BreakPointInfo M)) (hk : l[k]? = some s) (hik : i < k)
    (hi : l[i]? ≠ some none) : ∃ b, l[i]? = some (some b) := by
  have hklt := getElem?_lt_of_eq_some l k s hk
  have hilt : i < l.length := by omega
  cases hx : l[i]? with
  | none => rw [List.getElem?_eq_none_iff] at hx; omega
  | some x =>
    cases x with
    | none => exact absurd hx hi
    | some b => exact ⟨b, rfl⟩

theorem OccupiedPrefix_set_first_free {M : Type} (l : List (Option (BreakPointInfo M)))
    (k : Nat) (info1 : BreakPointInfo M) (hpre : DebugInfo.OccupiedPrefix l)
    (hk : l[k]? = some none) (hfree : ∀ j, j < k → l[j]? ≠ some none) :
    DebugInfo.OccupiedPrefix (List.set l k (some info1)) := by
  intro i j a hij hj
  by_cases hjk : k = j
  · subst hjk
    obtain ⟨b, hb⟩ := occupied_of_ne_none l i k none hk hij (hfree i hij)
    exact ⟨b, by rw [getElem?_set_other l k i _ (by omega), hb]⟩
  · rw [getElem?_set_other l k j _ hjk] at hj
    obtain ⟨b, hb⟩ := hpre i j a hij hj
    by_cases hik : k = i
    · subst hik; rw [hk] at hb; cases hb
    · exact ⟨b, by rw [getElem?_set_other l k i _ hik, hb]⟩

theorem Reachable_contiguous_invariant {M : Type} [DecidableEq M] (d : DebugInfo M)
    (h : DebugInfo.Reachable d) : DebugInfo.OccupiedPrefix d.break_points := by
  induction h with
  | empty n =>
    intro i j a _ hj
    have := List.eq_of_mem_replicate (List.getElem?_mem hj)
    cases this
  | @set d d1 p m _ hset ih =>
    obtain ⟨e, k, s, info1, hset2, hk, _, _, _, hcase⟩ := DebugInfo_SetBreakPoint_spec d p m
    rw [hset] at hset2
    cases hset2
    rcases hcase with ⟨info, hs, _, _, _⟩ | ⟨hs, _, _, hfree, _⟩
    · subst hs
      exact OccupiedPrefix_set_occupied _ k info info1 (OccupiedPrefix_append_none _ e ih) hk
    · subst hs
      exact OccupiedPrefix_set_first_free _ k info1 (OccupiedPrefix_append_none _ e ih) hk
        hfree
  | @clear d d1 m result _ hclear ih =>
    cases hfind : DebugInfo.FindBreakPointInfo.loop m d.break_points 0 with
    | none =>
      rw [DebugInfo_ClearBreakPoint_none d m hfind] at hclear
      cases hclear
      exact ih
    | some r =>
      obtain ⟨k, info⟩ := r
      obtain ⟨info1, _, hc2⟩ := DebugInfo_ClearBreakPoint_found d m k info hfind
      rw [hclear] at hc2
      cases hc2
      obtain ⟨hkk, _, _⟩ := (FindBreakPointInfo_loop_some_iff m _ k info).mp hfind
      exact OccupiedPrefix_set_occupied _ k info info1 ih hkk

/-- C19: occupied slots form a prefix. In every table reachable from a table of empty
slots by `DebugInfo::SetBreakPoint` and `DebugInfo::ClearBreakPoint` calls, every slot
before an occupied slot is occupied; and for a position without entry `SetBreakPoint`
writes the new entry to slot `k`, where all slots before `k` were occupied and no slot
from `k` on was. -/
theorem Reachable_slots_contiguous {M : Type} [DecidableEq M] (d : DebugInfo M)
    (h : DebugInfo.Reachable d) :
    (∀ (i j : Nat) (a : BreakPointInfo M), i < j → d.break_points[j]? = some (some a) →
        ∃ b, d.break_points[i]? = some (some b)) ∧
      ∀ (p : Int) (m : M), d.GetBreakPointInfo p = none →
        ∃ (k : Nat) (d1 : DebugInfo M), d.SetBreakPoint p m = some d1 ∧
          d1.break_points[k]? =
            some (some (BreakPointInfo.mk p (BreakPointObjects.single m))) ∧
          (∀ j : Nat, j < k → ∃ a, d.break_points[j]? = some (some a)) ∧
          ∀ (j : Nat) (a : BreakPointInfo M), k ≤ j →
            d.break_points[j]? ≠ some (some a) := by
  have hpre := Reachable_contiguous_invariant d h
  refine ⟨hpre, ?_⟩
  intro p m hp
  have hnone : DebugInfo.GetBreakPointInfo.loop p d.break_points 0 = none := by
    simpa [DebugInfo.GetBreakPointInfo] using hp
  obtain ⟨e, k, _, hk, hfree, hset⟩ := DebugInfo_SetBreakPoint_new d p m hnone
  refine ⟨k, _, hset, getElem?_set_same _ k _ none hk, ?_, ?_⟩
  · intro j hj
    obtain ⟨b, hb⟩ := occupied_of_ne_none _ j k none hk hj (hfree j hj)
    exact ⟨b, getElem?_append_replicate_none _ e j b hb⟩
  · intro j a hkj hj
    have hjlt := getElem?_lt_of_eq_some _ j _ hj
    rcases Nat.eq_or_lt_of_le hkj with heq | hlt
    · subst heq
      rw [List.getElem?_append_left hjlt, hj] at hk
      cases hk
    · obtain ⟨b, hb⟩ := hpre k j a hlt hj
      have hklt := getElem?_lt_of_eq_some _ k _ hb
      rw [List.getElem?_append_left hklt, hb] at hk
      cases hk

/-- Witness for C19: the table reached by `SetBreakPoint(10, 1)` and `SetBreakPoint(11, 1)`
from four empty slots; slot 0 precedes the occupied slot 1. -/
theorem Reachable_slots_contiguous_witness :
    DebugInfo.Reachable
        (DebugInfo.mk [some (BreakPointInfo.mk 10 (BreakPointObjects.single (1 : Nat))),
          some (BreakPointInfo.mk 11 (BreakPointObjects.single 1)), none, none]) ∧
      ∃ b, (DebugInfo.mk [some (BreakPointInfo.mk 10 (BreakPointObjects.single (1 : Nat))),
          some (BreakPointInfo.mk 11 (BreakPointObjects.single 1)), none, none]
        ).break_points[0]? = some (some b) :=
  have hr : DebugInfo.Reachable
      (DebugInfo.mk [some (BreakPointInfo.mk 10 (BreakPointObjects.single (1 : Nat))),
        some (BreakPointInfo.mk 11 (BreakPointObjects.single 1)), none, none]) :=
    DebugInfo.Reachable.set 11 1
      (DebugInfo.Reachable.set 10 1 (DebugInfo.Reachable.empty 4)
        (show _ = some (DebugInfo.mk
            [some (BreakPointInfo.mk 10 (BreakPointObjects.single 1)), none, none, none])
          by decide))
      (by decide)
  ⟨hr, (Reachable_slots_contiguous _ hr).1 0 1
    (BreakPointInfo.mk 11 (BreakPointObjects.single 1)) (by decide) (by decide)⟩

/-! ## Frame of insertion -/

theorem GetBreakPointInfo_loop_replicate_none {M : Type} (q : Int) (e : Nat) :
    ∀ i, DebugInfo.GetBreakPointInfo.loop q
      (List.replicate e (none : Option (BreakPointInfo M))) i = none := by
  induction e with
  | zero => intro i; rfl
  | succ e ih =>
    intro i
    rw [List.replicate_succ]
    simp only [DebugInfo.GetBreakPointInfo.loop]
    exact ih (i + 1)

theorem GetBreakPointInfo_loop_append_none {M : Type} (q : Int)
    (l : List (Option (BreakPointInfo M))) (e : Nat) :
    ∀ i, DebugInfo.GetBreakPointInfo.loop q (l ++ List.replicate e none) i =
      DebugInfo.GetBreakPointInfo.loop q l i := by
  induction l with
  | nil =>
    intro i
    simp only [List.nil_append, GetBreakPointInfo_loop_replicate_none,
      DebugInfo.GetBreakPointInfo.loop]
  | cons x rest ih =>
    intro i
    cases x with
    | none =>
      rw [List.cons_append]
      simp only [DebugInfo.GetBreakPointInfo.loop]
      exact ih (i + 1)
    | some a =>
      rw [List.cons_append]
      simp only [DebugInfo.GetBreakPointInfo.loop]
      rw [ih (i + 1)]

theorem GetBreakPointInfo_loop_set_other {M : Type} (q : Int)
    (l : List (Option (BreakPointInfo M))) (info1 : BreakPointInfo M)
    (h1 : info1.source_position ≠ q) :
    ∀ (k i : Nat) (s : Option (BreakPointInfo M)), l[k]? = some s →
      (∀ info, s = some info → info.source_position ≠ q) →
      DebugInfo.GetBreakPointInfo.loop q (List.set l k (some info1)) i =
        DebugInfo.GetBreakPointInfo.loop q l i := by
  induction l with
  | nil => intro k i s hk; simp at hk
  | cons x rest ih =>
    intro k i s hk hs
    cases k with
    | zero =>
      simp only [List.getElem?_cons_zero, Option.some.injEq] at hk
      subst hk
      cases x with
      | none => simp [DebugInfo.GetBreakPointInfo.loop, h1]
      | some a => simp [DebugInfo.GetBreakPointInfo.loop, h1, hs a rfl]
    | succ k =>
      simp only [List.getElem?_cons_succ] at hk
      cases x with
      | none =>
        simp only [List.set_cons_succ, DebugInfo.GetBreakPointInfo.loop]
        exact ih k (i + 1) s hk hs
      | some a =>
        simp only [List.set_cons_succ, DebugInfo.GetBreakPointInfo.loop]
        rw [ih k (i + 1) s hk hs]

theorem GetBreakPointCount_loop_append_none {M : Type} (l : List (Option (BreakPointInfo M)))
    (e : Nat) :
    ∀ count, DebugInfo.GetBreakPointCount.loop (l ++ List.replicate e none) count =
      DebugInfo.GetBreakPointCount.loop l count := by
  induction l with
  | nil =>
    intro count
    induction e with
    | zero => rfl
    | succ e ih =>
      rw [List.nil_append, List.replicate_succ]
      simpa [DebugInfo.GetBreakPointCount.loop] using ih
  | cons x rest ih =>
    intro count
    cases x with
    | none =>
      rw [List.cons_append]
      simp only [DebugInfo.GetBreakPointCount.loop]
      exact ih count
    | some a =>
      rw [List.cons_append]
      simp only [DebugInfo.GetBreakPointCount.loop]
      exact ih _

theorem GetBreakPointCount_loop_set {M : Type} (l : List (Option (BreakPointInfo M)))
    (info1 : BreakPointInfo M) :
    ∀ (k : Nat) (s : Option (BreakPointInfo M)), l[k]? = some s →
      DebugInfo.GetBreakPointCount.loop (List.set l k (some info1)) 0 +
          (match s with
            | none => 0
            | some info => info.GetBreakPointCount) =
        DebugInfo.GetBreakPointCount.loop l 0 + info1.GetBreakPointCount := by
  induction l with
  | nil => intro k s hk; simp at hk
  | cons x rest ih =>
    intro k s hk
    cases k with
    | zero =>
      simp only [List.getElem?_cons_zero, Option.some.injEq] at hk
      subst hk
      cases x with
      | none =>
        simp only [List.set_cons_zero, DebugInfo.GetBreakPointCount.loop]
        rw [GetBreakPointCount_loop_add rest (0 + info1.GetBreakPointCount)]
        omega
      | some a =>
        simp only [List.set_cons_zero, DebugInfo.GetBreakPointCount.loop]
        rw [GetBreakPointCount_loop_add rest (0 + info1.GetBreakPointCount),
          GetBreakPointCount_loop_add rest (0 + a.GetBreakPointCount)]
        omega
    | succ k =>
      simp only [List.getElem?_cons_succ] at hk
      have hstep := ih k s hk
      cases x with
      | none =>
        simp only [List.set_cons_succ, DebugInfo.GetBreakPointCount.loop]
        exact hstep
      | some a =>
        simp only [List.set_cons_succ, DebugInfo.GetBreakPointCount.loop]
        rw [GetBreakPointCount_loop_add _ (0 + a.GetBreakPointCount),
          GetBreakPointCount_loop_add rest (0 + a.GetBreakPointCount)]
        omega

/-- C20: frame of insertion. For every table, positions `p` and `q` with `q ≠ p`, and
break point object `m`, `DebugInfo::SetBreakPoint(p, m)` returns a table in which
`GetBreakPointInfo(q)`, `GetBreakPointObjects(q)` and `HasBreakPoint(q)` are as before, and
`GetBreakPointCount` is as before when the entry for `p` already had `m`, and one more
when it had not or when there was no entry for `p`. -/
theorem SetBreakPoint_frame {M : Type} [DecidableEq M] (d : DebugInfo M) (p q : Int) (m : M)
    (hq : q ≠ p) :
    ∃ d1, d.SetBreakPoint p m = some d1 ∧
      d1.GetBreakPointInfo q = d.GetBreakPointInfo q ∧
      d1.GetBreakPointObjects q = d.GetBreakPointObjects q ∧
      d1.HasBreakPoint q = d.HasBreakPoint q ∧
      d1.GetBreakPointCount =
        d.GetBreakPointCount +
          (match d.GetBreakPointInfo p with
            | some info => if info.HasBreakPointObject m = true then 0 else 1
            | none => 1) := by
  obtain ⟨e, k, s, info1, hset, hk, _, hp, _, hcase⟩ := DebugInfo_SetBreakPoint_spec d p m
  have hs : ∀ info, s = some info → info.source_position ≠ q := by
    intro info hsi
    rcases hcase with ⟨info0, hs0, _, hfound, _⟩ | ⟨hs0, _⟩
    · rw [hs0] at hsi
      cases hsi
      rw [((GetBreakPointInfo_loop_some_iff p _ k info).mp hfound).2.1]
      exact fun h => hq h.symm
    · rw [hs0] at hsi; cases hsi
  have hinfo : DebugInfo.GetBreakPointInfo
      (DebugInfo.mk (List.set (d.break_points ++ List.replicate e none) k (some info1))) q =
      d.GetBreakPointInfo q := by
    simp only [DebugInfo.GetBreakPointInfo]
    rw [GetBreakPointInfo_loop_set_other q _ info1 (by rw [hp]; exact fun h => hq h.symm)
      k 0 s hk hs, GetBreakPointInfo_loop_append_none]
  refine ⟨_, hset, hinfo, ?_, ?_, ?_⟩
  · simp only [DebugInfo.GetBreakPointObjects, hinfo]
  · simp only [DebugInfo.HasBreakPoint, hinfo]
  · have hcount := GetBreakPointCount_loop_set (d.break_points ++ List.replicate e none)
      info1 k s hk
    rw [GetBreakPointCount_loop_append_none] at hcount
    simp only [DebugInfo.GetBreakPointCount]
    rcases hcase with ⟨info0, hs0, _, hfound, hset1⟩ | ⟨hs0, hnone, hnew, _, _⟩
    · subst hs0
      obtain ⟨info2, h2, _, _, _, hc, _⟩ := SetBreakPoint_spec info0 m
      rw [hset1] at h2
      cases h2
      simp only [DebugInfo.GetBreakPointInfo, hfound, Option.map_some',
        HasBreakPointObject_iff_mem]
      simp only at hcount
      omega
    · subst hs0
      subst hnew
      simp only [DebugInfo.GetBreakPointInfo, hnone, Option.map_none']
      simp only [BreakPointInfo.GetBreakPointCount] at hcount
      omega

/-- Witness for C20: the table with entries for the positions 10 and 11, insertion of the
object 2 at position 10, observed at position 11. -/
theorem SetBreakPoint_frame_witness :
    ∃ d1, DebugInfo.SetBreakPoint
        (DebugInfo.mk [some (BreakPointInfo.mk 10 (BreakPointObjects.single (1 : Nat))),
          some (BreakPointInfo.mk 11 (BreakPointObjects.single 1)), none, none]) 10 2 =
        some d1 ∧
      d1.GetBreakPointObjects 11 = some (BreakPointObjects.single 1) ∧
      d1.HasBreakPoint 11 = true ∧ d1.GetBreakPointCount = 2 + 1 :=
  match SetBreakPoint_frame
      (DebugInfo.mk [some (BreakPointInfo.mk 10 (BreakPointObjects.single (1 : Nat))),
        some (BreakPointInfo.mk 11 (BreakPointObjects.single 1)), none, none]) 10 11 2
      (by decide) with
  | ⟨d1, h1, _, h3, h4, h5⟩ => ⟨d1, h1, h3, h4, h5⟩

/-! ## The copying loop, step by step -/

theorem FixedArray.length_of_set {α : Type} (array array1 : FixedArray α) (i : Int)
    (v : Option α) (h : FixedArray.set array i v = some array1) :
    array1.length = array.length := by
  unfold FixedArray.set at h
  split at h
  · cases h; simp
  · cases h

/-- The loop of `BreakPointInfo::ClearBreakPoint` completes exactly when every write listed
by `events` is inside the new array. -/
theorem ClearBreakPoint_loop_completes_iff {M : Type} [DecidableEq M] (m : M)
    (rest : List (Option M)) :
    ∀ (i found_count : Int) (new_array : FixedArray M),
      (BreakPointInfo.ClearBreakPoint.loop m rest i found_count new_array).isSome = true ↔
        ∀ index, index ∈ CopyEvent.writes
            (BreakPointInfo.ClearBreakPoint.events m rest i found_count) →
          0 ≤ index ∧ index < (new_array.length : Int) := by
  induction rest with
  | nil =>
    intro i fc new_array
    simp [BreakPointInfo.ClearBreakPoint.loop, BreakPointInfo.ClearBreakPoint.events,
      CopyEvent.writes]
  | cons x rest ih =>
    intro i fc new_array
    by_cases hx : x = some m
    · simp only [BreakPointInfo.ClearBreakPoint.loop, BreakPointInfo.ClearBreakPoint.events,
        hx, if_true, CopyEvent.writes]
      exact ih (i + 1) (fc + 1) new_array
    · simp only [BreakPointInfo.ClearBreakPoint.loop, BreakPointInfo.ClearBreakPoint.events,
        hx, if_false, CopyEvent.writes, List.mem_cons]
      cases hset : FixedArray.set new_array (i - fc) x with
      | none =>
        simp only [Option.isSome_none, Bool.false_eq_true, false_iff]
        intro hall
        have hb := hall (i - fc) (Or.inl rfl)
        simp only [FixedArray.set, hb, and_self, if_true] at hset
        cases hset
      | some new_array1 =>
        have hlen := FixedArray.length_of_set new_array new_array1 (i - fc) x hset
        have hin : 0 ≤ i - fc ∧ i - fc < (new_array.length : Int) := by
          by_contra hc
          simp only [FixedArray.set, hc, if_false] at hset
          cases hset
        simp only
        rw [ih (i + 1) fc new_array1, hlen]
        constructor
        · intro hall index hidx
          rcases hidx with rfl | hidx
          · exact hin
          · exact hall index hidx
        · intro hall index hidx
          exact hall index (Or.inr hidx)

theorem writes_events_eq {M : Type} [DecidableEq M] (m : M) (rest : List (Option M)) :
    ∀ (i found_count : Int),
      CopyEvent.writes (BreakPointInfo.ClearBreakPoint.events m rest i found_count) =
        (List.range (rest.filter (fun y => !decide (y = some m))).length).map
          (fun n : Nat => i - found_count + (n : Int)) := by
  induction rest with
  | nil => intro i fc; simp [BreakPointInfo.ClearBreakPoint.events, CopyEvent.writes]
  | cons x rest ih =>
    intro i fc
    by_cases hx : x = some m
    · simp only [BreakPointInfo.ClearBreakPoint.events, hx, if_true, CopyEvent.writes,
        ih (i + 1) (fc + 1)]
      simp
    · simp only [BreakPointInfo.ClearBreakPoint.events, hx, if_false, CopyEvent.writes,
        ih (i + 1) fc]
      simp only [hx, decide_False, Bool.not_false, List.filter_cons_of_pos, List.length_cons,
        List.range_succ_eq_map, List.map_cons, List.map_map, Nat.cast_zero, add_zero]
      congr 1
      apply List.map_congr_left
      intro n _
      simp only [Function.comp, Nat.succ_eq_add_one, Nat.cast_add, Nat.cast_one]
      omega

theorem dchecks_events_eq {M : Type} [DecidableEq M] (m : M) (rest : List (Option M)) :
    ∀ (i found_count : Int),
      CopyEvent.dchecks (BreakPointInfo.ClearBreakPoint.events m rest i found_count) =
        (List.range (rest.filter (fun y => decide (y = some m))).length).map
          (fun n : Nat => decide (found_count + (n : Int) = 0)) := by
  induction rest with
  | nil => intro i fc; simp [BreakPointInfo.ClearBreakPoint.events, CopyEvent.dchecks]
  | cons x rest ih =>
    intro i fc
    by_cases hx : x = some m
    · simp only [BreakPointInfo.ClearBreakPoint.events, hx, if_true, CopyEvent.dchecks,
        ih (i + 1) (fc + 1)]
      simp only [decide_True, List.filter_cons_of_pos, List.length_cons,
        List.range_succ_eq_map, List.map_cons, List.map_map, Nat.cast_zero, add_zero]
      congr 1
      apply List.map_congr_left
      intro n _
      simp only [Function.comp, Nat.succ_eq_add_one, Nat.cast_add, Nat.cast_one]
      congr 1
      apply propext
      constructor <;> intro h <;> omega
    · simp only [BreakPointInfo.ClearBreakPoint.events, hx, if_false, CopyEvent.dchecks,
        ih (i + 1) fc]
      simp [hx]

/-- C18: bounds safety of the shrinking copy. For every entry with an array that holds no
break point object twice and has the object `m`, the new array of
`BreakPointInfo::ClearBreakPoint` has `old_array->length() - 1` slots, every write
`new_array->set(i - found_count, ...)` is inside it, the writes go to the slots
`0, 1, ..., old_array->length() - 2`, each once, the only `DCHECK(found_count == 0)`
evaluated holds, and the loop completes with `found_count == 1`. -/
theorem ClearBreakPoint_copy_in_bounds {M : Type} [DecidableEq M] (p : Int)
    (old_array : FixedArray M) (m : M)
    (hnd : (BreakPointInfo.mk p (BreakPointObjects.array old_array)).markers.Nodup)
    (hhas : (BreakPointInfo.mk p (BreakPointObjects.array old_array)).HasBreakPointObject m =
      true) :
    (NewFixedArray ((old_array.length : Int) - 1) : Option (FixedArray M)) =
        some (List.replicate (old_array.length - 1) none) ∧
      (∀ index, index ∈ CopyEvent.writes
          (BreakPointInfo.ClearBreakPoint.events m old_array 0 0) →
        0 ≤ index ∧ index < (old_array.length : Int) - 1) ∧
      CopyEvent.writes (BreakPointInfo.ClearBreakPoint.events m old_array 0 0) =
        (List.range (old_array.length - 1)).map (fun n : Nat => (n : Int)) ∧
      CopyEvent.dchecks (BreakPointInfo.ClearBreakPoint.events m old_array 0 0) = [true] ∧
      ∃ new_array, BreakPointInfo.ClearBreakPoint.loop m old_array 0 0
          (List.replicate (old_array.length - 1) none) = some (new_array, 1) := by
  have hmem : some m ∈ old_array := by
    simpa [HasBreakPointObject_array] using hhas
  have hpos : 0 < (old_array.filter (fun y => decide (y = some m))).length :=
    List.length_pos_of_mem (List.mem_filter.mpr ⟨hmem, by simp⟩)
  have hle : (old_array.filter (fun y => decide (y = some m))).length ≤ 1 := by
    rw [length_filter_eq_reduceOption]
    exact length_filter_eq_le_one m _ hnd
  have hone : (old_array.filter (fun y => decide (y = some m))).length = 1 := by omega
  have hsum := length_filter_ne_add_count (some m) old_array
  have hnw : (old_array.filter (fun y => !decide (y = some m))).length =
      old_array.length - 1 := by omega
  have hwrites : CopyEvent.writes (BreakPointInfo.ClearBreakPoint.events m old_array 0 0) =
      (List.range (old_array.length - 1)).map (fun n : Nat => (n : Int)) := by
    rw [writes_events_eq, hnw]
    apply List.map_congr_left
    intro n _
    simp
  refine ⟨?_, ?_, hwrites, ?_, ?_⟩
  · have := NewFixedArray_ofNat M (old_array.length - 1)
    rw [← this]; congr 1; omega
  · intro index hidx
    rw [hwrites, List.mem_map] at hidx
    obtain ⟨n, hn, rfl⟩ := hidx
    rw [List.mem_range] at hn
    omega
  · rw [dchecks_events_eq, hone]
    rfl
  · have hloop := ClearBreakPoint_loop_eq m old_array [] (old_array.length - 1) 0 0 (by simp)
    simp only [List.nil_append] at hloop
    rw [hloop, if_pos (by omega), hone]
    exact ⟨_, rfl⟩

/-- Witness for C18: the array `[1, 2, 3]` and the object 2; the writes go to the slots 0
and 1. -/
theorem ClearBreakPoint_copy_in_bounds_witness :
    CopyEvent.writes
        (BreakPointInfo.ClearBreakPoint.events (2 : Nat) [some 1, some 2, some 3] 0 0) =
        [0, 1] ∧
      CopyEvent.dchecks
        (BreakPointInfo.ClearBreakPoint.events (2 : Nat) [some 1, some 2, some 3] 0 0) =
        [true] :=
  have h := ClearBreakPoint_copy_in_bounds 10 [some (1 : Nat), some 2, some 3] 2
    (by decide) (by decide)
  ⟨h.2.2.1, h.2.2.2.1⟩

end V8
